import Mathlib

/-!
Verification of the itinerary day-shift engine of the travel-planner app.

The date utilities (`addDays`, `getDaysArray` in `utils/dateUtils.ts`)
manipulate `YYYY-MM-DD` strings through JavaScript `Date` objects anchored
at UTC midnight.  A JS string is embedded as a `List Char`, and a UTC-
midnight timestamp as the integer number of days since the Unix epoch
(1970-01-01).  The Gregorian conversions between day numbers and civil
`(year, month, day)` triples embed the ECMAScript `MakeDay` /
`YearFromTime` / `MonthFromTime` / `DateFromTime` computations: the
forward direction is the standard era-based closed formula, the inverse
is computed by a guess-and-correct year search and certified against the
forward direction by `daysFromCivil_civilFromDays`.

The remove-day / extend-trip engine (`handleRemoveDay`,
`handleUpdateTripDates` in `App.tsx`, `handleExtendTrip`,
`handleRemoveClick` in `components/TripItinerary.tsx`) is embedded as a
function that produces the ordered list of persistence commands the code
issues (`handleRemoveDay`), together with the store state obtained by
applying them (`removeDay`).  The persistence collaborator stores the
`date` column as a date value, so its `eq` / `gt` filters compare parsed
dates; this is modelled by `dbDate`, `dateEqB` and `dateGtB`.
-/

/-- A JavaScript string (sequence of characters). -/
abbrev JStr := List Char

/-! ## Gregorian day-number arithmetic -/

/-- Day number (days since 1970-01-01) of a proleptic Gregorian civil date
`(y, m, d)` with months `1..12`.  Standard era-based closed formula (the
computational year starts on March 1); extensionally the ECMAScript
`MakeDay(y, m-1, d)` in days. -/
def daysFromCivil (y m d : Int) : Int :=
  let yy := y - (if m ≤ 2 then 1 else 0)
  let era := yy / 400
  let yoe := yy - era * 400
  let mp := m + (if 2 < m then -3 else 9)
  let doy := (153 * mp + 2) / 5 + d - 1
  let doe := yoe * 365 + yoe / 4 - yoe / 100 + doy
  era * 146097 + (doe - 719468)

/-- Civil `(year, month, day)` triple of a day number (days since
1970-01-01); the inverse of `daysFromCivil` (certified by
`daysFromCivil_civilFromDays`).  The year of era is found by an initial
guess `doe / 366` followed by a single correction step. -/
def civilFromDays (z : Int) : Int × Int × Int :=
  let zz := z + 719468
  let era := zz / 146097
  let doe := zz - era * 146097
  let y0 := doe / 366
  let yoe := if y0 + 1 ≤ 399 ∧ 365 * (y0 + 1) + (y0 + 1) / 4 - (y0 + 1) / 100 ≤ doe
             then y0 + 1 else y0
  let doy := doe - (365 * yoe + yoe / 4 - yoe / 100)
  let mp := (5 * doy + 2) / 153
  let d := doy - (153 * mp + 2) / 5 + 1
  let m := mp + (if mp < 10 then 3 else -9)
  (yoe + era * 400 + (if m ≤ 2 then 1 else 0), m, d)

/-- A day number whose civil year lies in `[100, 9999]`: the range in
which `toISOString` uses the plain 4-digit `YYYY-MM-DD` form and
re-parsing is not distorted by the two-digit-year rule of `Date.UTC`. -/
def safeDay (z : Int) : Prop :=
  100 ≤ (civilFromDays z).1 ∧ (civilFromDays z).1 ≤ 9999

instance (z : Int) : Decidable (safeDay z) := by
  unfold safeDay; infer_instance

/-! ## Digits and numeric strings -/

/-- Is `c` an ASCII digit? -/
def isDigit (c : Char) : Bool :=
  decide (48 ≤ c.toNat) && decide (c.toNat ≤ 57)

/-- The ASCII digit character for `n` (defined for `n ≤ 9`). -/
def digitChar (n : Nat) : Char :=
  if n = 0 then '0' else if n = 1 then '1' else if n = 2 then '2'
  else if n = 3 then '3' else if n = 4 then '4' else if n = 5 then '5'
  else if n = 6 then '6' else if n = 7 then '7' else if n = 8 then '8' else '9'

/-- Numeric value of a digit string read left to right. -/
def valDigits (cs : JStr) : Nat :=
  cs.foldl (fun a c => 10 * a + (c.toNat - 48)) 0

/-- Decimal digits of `n` (most significant first), with fuel. -/
def natDigitsAux : Nat → Nat → JStr
  | 0, _ => []
  | f + 1, n => if n = 0 then [] else natDigitsAux f (n / 10) ++ [digitChar (n % 10)]

/-- Decimal digits of `n` (most significant first); empty for `0`. -/
def digitsOf (n : Nat) : JStr := natDigitsAux n n

/-- `n` printed in decimal and left-padded with zeros to width `w`
(the padding used by `toISOString` date fields). -/
def padNum (w : Nat) (n : Int) : JStr :=
  List.replicate (w - (digitsOf n.toNat).length) '0' ++ digitsOf n.toNat

/-! ## String splitting and numeric parsing (JS semantics) -/

/-- `String.prototype.split('-')`. -/
def splitDash : JStr → List JStr
  | [] => [[]]
  | c :: cs =>
    if c = '-' then [] :: splitDash cs
    else
      match splitDash cs with
      | [] => [[c]]
      | p :: ps => (c :: p) :: ps

/-- JS `parseInt(s, 10)`: skip leading spaces, optional sign, then the
longest digit prefix; `none` models `NaN`. -/
def parseIntCs (s : JStr) : Option Int :=
  let t := s.dropWhile (fun c => c = ' ')
  match t with
  | [] => none
  | c :: rest =>
    if c = '-' then
      (if rest.takeWhile isDigit = [] then none
       else some (-((valDigits (rest.takeWhile isDigit) : Nat) : Int)))
    else if c = '+' then
      (if rest.takeWhile isDigit = [] then none
       else some ((valDigits (rest.takeWhile isDigit) : Nat) : Int))
    else
      (if t.takeWhile isDigit = [] then none
       else some ((valDigits (t.takeWhile isDigit) : Nat) : Int))

/-- JS `Number(s)` restricted to the integral forms the date code can
meet: empty (and all-space) strings convert to `0`, an optional sign
followed by digits only converts to that value, anything else is `NaN`
(modelled as `none`). -/
def numberJS (s : JStr) : Option Int :=
  let t := s.dropWhile (fun c => c = ' ')
  match t with
  | [] => some 0
  | c :: rest =>
    if c = '-' then
      (if rest ≠ [] ∧ rest.all isDigit then some (-((valDigits rest : Nat) : Int)) else none)
    else if c = '+' then
      (if rest ≠ [] ∧ rest.all isDigit then some ((valDigits rest : Nat) : Int) else none)
    else
      (if t.all isDigit then some ((valDigits t : Nat) : Int) else none)

/-! ## JS `Date` model -/

/-- `Date.UTC(y, m, d)` in days: the two-digit-year rule maps `0..99` to
`1900..1999`, out-of-range months roll over into adjacent years, and the
day is added as an offset.  `m` is 0-based as in JS. -/
def utcDays (y m d : Int) : Int :=
  let yr := if 0 ≤ y ∧ y ≤ 99 then y + 1900 else y
  let ym := yr + m / 12
  let mn := m % 12
  daysFromCivil ym (mn + 1) 1 + (d - 1)

/-- `new Date(Date.UTC(y, m, d))` in days; `none` models an invalid date
(`NaN` time value when the result is outside the representable range of
±100,000,000 days). -/
def jsDateUTC (y m d : Int) : Option Int :=
  let t := utcDays y m d
  if t < -100000000 ∨ 100000000 < t then none else some t

/-- The date part of `toISOString()` for the UTC-midnight timestamp `z`:
`YYYY-MM-DD` for years `0..9999`, the expanded `±YYYYYY-MM-DD` form
otherwise. -/
def toISOdate (z : Int) : JStr :=
  let c := civilFromDays z
  let tail := ('-' :: padNum 2 c.2.1) ++ ('-' :: padNum 2 c.2.2)
  if 0 ≤ c.1 ∧ c.1 ≤ 9999 then padNum 4 c.1 ++ tail
  else if c.1 < 0 then '-' :: (padNum 6 (-c.1) ++ tail)
  else '+' :: (padNum 6 c.1 ++ tail)

/-- `parseInt(parts[i], 10)` where a missing component (JS `undefined`)
parses to `NaN`. -/
def intAt (ps : List JStr) (i : Nat) : Option Int :=
  match ps.get? i with
  | some comp => parseIntCs comp
  | none => none

/-- `Number(parts[i])` where a missing component (JS `undefined`)
converts to `NaN`. -/
def numAt (ps : List JStr) (i : Nat) : Option Int :=
  match ps.get? i with
  | some comp => numberJS comp
  | none => none

/-! ## The date utilities of `utils/dateUtils.ts` -/

/-- `addDays(dateStr, daysToAdd)`: parse the components with `parseInt`,
build a UTC date, shift it with `setUTCDate(getUTCDate() + daysToAdd)`,
and print it back with `toISOString().split('T')[0]`.  `none` models the
`RangeError` thrown by `toISOString` on an invalid date. -/
def addDays (s : JStr) (n : Int) : Option JStr := do
  let ps := splitDash s
  let y ← intAt ps 0
  let m ← intAt ps 1
  let d ← intAt ps 2
  let t ← jsDateUTC y (m - 1) d
  let c := civilFromDays t
  let t2 := daysFromCivil c.1 c.2.1 1 + (c.2.2 + n - 1)
  let t3 ← if t2 < -100000000 ∨ 100000000 < t2 then none else some t2
  pure (toISOdate t3)

/-- The while loop of `getDaysArray`, which pushes one `Date` per day
while `dt <= endDt`; expressed by its iteration count. -/
def daysRangeAux : Nat → Int → List Int
  | 0, _ => []
  | n + 1, dt => dt :: daysRangeAux n (dt + 1)

/-- The day numbers from `dt` to `endDt` inclusive. -/
def daysRange (dt endDt : Int) : List Int :=
  daysRangeAux (endDt + 1 - dt).toNat dt

/-- The `Date.UTC` value `getDaysArray` builds from one bound: components
via `split('-').map(Number)`, then `Date.UTC(y, m-1, d)`. -/
def boundOfStr (s : JStr) : Option Int := do
  let ps := splitDash s
  let y ← numAt ps 0
  let m ← numAt ps 1
  let d ← numAt ps 2
  jsDateUTC y (m - 1) d

/-- `getDaysArray(start, end)`: parse both bounds, return `[]` when either
is `NaN` (the `isNaN` safety check), otherwise one `Date` per day from
`start` to `end` inclusive.  Each pushed `Date` is embedded as its day
number. -/
def getDaysArray (start endS : JStr) : List Int :=
  match boundOfStr start, boundOfStr endS with
  | some dt, some endDt => daysRange dt endDt
  | _, _ => []

/-! ## The persistence collaborator's view of dates

The `activities.date` and trip date columns hold date values, so the
store's `eq` / `gt` filters compare chronologically.  `dbDate` parses a
stored string as a date; comparisons on unparseable values select
nothing. -/

/-- The date value the store parses out of a stored string. -/
def dbDate (s : JStr) : Option Int :=
  match splitDash s with
  | [ys, ms, ds] =>
    match numberJS ys, numberJS ms, numberJS ds with
    | some y, some m, some d => some (daysFromCivil y m d)
    | _, _, _ => none
  | _ => none

/-- Store filter `eq('date', b)`. -/
def dateEqB (a b : JStr) : Bool :=
  match dbDate a, dbDate b with
  | some x, some y => decide (x = y)
  | _, _ => false

/-- Store filter `gt('date', b)`. -/
def dateGtB (a b : JStr) : Bool :=
  match dbDate a, dbDate b with
  | some x, some y => decide (y < x)
  | _, _ => false

/-! ## Data model and persistence commands -/

/-- A trip record. -/
structure Trip where
  id : Nat
  destination : JStr
  startDate : JStr
  endDate : JStr
  budget : Int
deriving DecidableEq, Repr

/-- An activity record. -/
structure Activity where
  id : Nat
  tripId : Nat
  date : JStr
  description : JStr
  isCompleted : Bool
deriving DecidableEq, Repr

/-- The store state: the trips and activities tables, in insertion
order. -/
structure AppState where
  trips : List Trip
  activities : List Activity
deriving DecidableEq, Repr

/-- A persistence command issued by the engine. -/
inductive DbOp where
  /-- `delete().eq('trip_id', tid).eq('date', d)` on `activities`. -/
  | deleteActs (tripId : Nat) (d : JStr)
  /-- `update({date: nd}).eq('id', i)` on `activities`. -/
  | updateActDate (i : Nat) (nd : JStr)
  /-- `update({start_date: ns, end_date: ne}).eq('id', tid)` on `trips`. -/
  | updateTrip (tripId : Nat) (ns ne : JStr)
deriving DecidableEq, Repr

/-- `handleUpdateTripDates`: rewrite the date columns of the trip with the
given id. -/
def handleUpdateTripDates (trips : List Trip) (tripId : Nat) (ns ne : JStr) : List Trip :=
  trips.map fun t => if t.id = tripId then { t with startDate := ns, endDate := ne } else t

/-- Effect of one persistence command on the store. -/
def applyOp (st : AppState) : DbOp → AppState
  | .deleteActs tid d =>
    { st with activities := st.activities.filter fun a => !(a.tripId = tid ∧ dateEqB a.date d) }
  | .updateActDate i nd =>
    { st with activities := st.activities.map fun a => if a.id = i then { a with date := nd } else a }
  | .updateTrip tid ns ne =>
    { st with trips := handleUpdateTripDates st.trips tid ns ne }

/-- Apply a list of persistence commands in order. -/
def runOps (st : AppState) (ops : List DbOp) : AppState :=
  ops.foldl applyOp st

/-! ## The remove-day engine (`handleRemoveDay` in `App.tsx`) -/

/-- The ordered sequence of persistence commands `handleRemoveDay`
issues for the active trip `trip` against the current activities table
`acts`, removing the day `d`.  The activity shifts of the interior case
are dispatched in one `Promise.all` batch, and the batch is awaited
before the trip-date update is issued, so the trace lists all shift
commands before the `updateTrip` command.  A `none` result models a
thrown date-arithmetic error (`addDays` on an unparseable date). -/
def handleRemoveDay (trip : Trip) (acts : List Activity) (d : JStr) :
    Option (List DbOp) :=
  let isStart := d = trip.startDate
  let isEnd := d = trip.endDate
  -- step 1: delete the activities of this trip dated `d`
  let delOp := DbOp.deleteActs trip.id d
  -- the activities left for this trip after the delete
  let remaining := acts.filter fun a => !(a.tripId = trip.id ∧ dateEqB a.date d)
  if isStart then do
    let newStart ← addDays trip.startDate 1
    pure [delOp, .updateTrip trip.id newStart trip.endDate]
  else if isEnd then do
    let newEnd ← addDays trip.endDate (-1)
    pure [delOp, .updateTrip trip.id trip.startDate newEnd]
  else do
    -- step A: fetch the activities dated strictly after `d`
    let actsToShift := remaining.filter fun a => a.tripId = trip.id ∧ dateGtB a.date d
    -- step B: shift each back by one day
    let shifts ← actsToShift.mapM fun a =>
      (addDays a.date (-1)).map fun nd => DbOp.updateActDate a.id nd
    -- step C: bring the end date back by one
    let newEnd ← addDays trip.endDate (-1)
    pure (delOp :: (shifts ++ [.updateTrip trip.id trip.startDate newEnd]))

/-- The store state after `handleRemoveDay` completes (and the UI
re-fetches it). -/
def removeDay (st : AppState) (trip : Trip) (d : JStr) : Option AppState :=
  (handleRemoveDay trip st.activities d).map (runOps st)

/-! ## Extend trip (`handleExtendTrip` in `TripItinerary.tsx`) -/

/-- The single trip-date update `handleExtendTrip` issues:
`onTripUpdate(trip.id, trip.startDate, addDays(trip.endDate, 1))`. -/
def handleExtendTrip (trip : Trip) : Option DbOp :=
  (addDays trip.endDate 1).map fun newEnd => DbOp.updateTrip trip.id trip.startDate newEnd

/-- The store state after extending the trip by one day. -/
def extendTrip (st : AppState) (trip : Trip) : Option AppState :=
  (handleExtendTrip trip).map (applyOp st)

/-! ## Remove-day UI guard (`handleRemoveClick` in `TripItinerary.tsx`) -/

/-- Outcome of clicking the remove-day control. -/
inductive RemoveClickOutcome where
  /-- The `days.length <= 1` guard fired: the removal is rejected with an
  alert and nothing is executed. -/
  | validationFailure
  /-- Another update is already in flight; the click is ignored. -/
  | busy
  /-- The user declined the confirmation dialog. -/
  | cancelled
  /-- `onRemoveDay` ran and issued these commands. -/
  | issued (ops : List DbOp)
  /-- `onRemoveDay` threw a date-arithmetic error. -/
  | errored
deriving DecidableEq, Repr

/-- `handleRemoveClick(dateStr)`: reject when the trip has at most one
day, ignore when busy, ask for confirmation, then run the removal. -/
def handleRemoveClick (trip : Trip) (acts : List Activity) (d : JStr)
    (isBusy confirmed : Bool) : RemoveClickOutcome :=
  if (getDaysArray trip.startDate trip.endDate).length ≤ 1 then .validationFailure
  else if isBusy then .busy
  else if confirmed then
    match handleRemoveDay trip acts d with
    | some ops => .issued ops
    | none => .errored
  else .cancelled

/-- Store state after a remove-day click: only an `issued` outcome
mutates the store. -/
def applyOutcome (st : AppState) : RemoveClickOutcome → AppState
  | .issued ops => runOps st ops
  | _ => st

/-! ## Derived notions used to state the claims -/

/-- The date transformation `removeDay` applies to a surviving activity
day `k` of a trip `[s, e]` when the day `dd` is removed: only the
interior case shifts, and it shifts exactly the days after `dd`. -/
def removedShift (s e dd k : Int) : Int :=
  if s < dd ∧ dd < e ∧ dd < k then k - 1 else k

/-- Does `s` denote a real calendar date, i.e. is it the canonical
`YYYY-MM-DD` print of a day number?  (Digit counts as printed, month
`1..12`, day within the month's length.) -/
def isCanonicalDate (s : JStr) : Bool :=
  match splitDash s with
  | [ys, ms, ds] =>
    match numberJS ys, numberJS ms, numberJS ds with
    | some y, some m, some d =>
      ys.length = 4 && ms.length = 2 && ds.length = 2 &&
      ys.all isDigit && ms.all isDigit && ds.all isDigit &&
      decide (1 ≤ m) && decide (m ≤ 12) && decide (1 ≤ d) &&
      decide (d ≤ 28 + (if m = 2 then (if y % 4 = 0 ∧ (y % 100 ≠ 0 ∨ y % 400 = 0) then 1 else 0)
                        else if m = 4 ∨ m = 6 ∨ m = 9 ∨ m = 11 then 2 else 3))
    | _, _, _ => false
  | _ => false

/-- Net effect on one activity record of a list of persistence commands
(only `updateActDate` commands touch activity records, and only when the
id matches). -/
def applyActOps (ops : List DbOp) (a : Activity) : Activity :=
  ops.foldl
    (fun acc op =>
      match op with
      | .updateActDate i nd => if acc.id = i then { acc with date := nd } else acc
      | _ => acc)
    a

/-- An activity whose stored date is the canonical print of a day number
with year in `[100, 9999]` (the invariant the app maintains: activity
dates are written with `toISOString().split('T')[0]`). -/
def canonicalAct (a : Activity) : Prop :=
  safeDay ((dbDate a.date).getD 0) ∧ a.date = toISOdate ((dbDate a.date).getD 0)

instance (a : Activity) : Decidable (canonicalAct a) := by
  unfold canonicalAct; infer_instance

/-! ## Concrete fixtures (the worked example of the spec:
a trip `[2024-03-01, 2024-03-05]`; day numbers 19783..19787) -/

/-- Example destination string. -/
def exDest : JStr := ['R', 'o', 'm', 'e']

/-- Example activity description string. -/
def exDesc : JStr := ['s', 'e', 'e']

/-- Example activity record. -/
def exAct (i tid : Nat) (day : Int) : Activity :=
  { id := i, tripId := tid, date := toISOdate day, description := exDesc, isCompleted := false }

/-- Example five-day trip `[2024-03-01, 2024-03-05]`. -/
def exTrip : Trip :=
  { id := 7, destination := exDest, startDate := toISOdate 19783,
    endDate := toISOdate 19787, budget := 1000 }

/-- Example store: the five-day trip with activities on 03-01, 03-03,
03-04 and 03-05. -/
def exSt : AppState :=
  { trips := [exTrip],
    activities := [exAct 1 7 19783, exAct 2 7 19785, exAct 3 7 19786, exAct 4 7 19787] }

/-- Example single-day trip `[2024-03-01, 2024-03-01]`. -/
def exTrip1 : Trip :=
  { id := 9, destination := exDest, startDate := toISOdate 19783,
    endDate := toISOdate 19783, budget := 500 }

/-- Example store for the single-day trip. -/
def exSt1 : AppState :=
  { trips := [exTrip1], activities := [exAct 11 9 19783] }

/-! # Theorems -/

/-! ## Gregorian arithmetic -/

theorem yoe_step (doe y0 yoe : Int) (hd : 0 ≤ doe) (hd2 : doe ≤ 146096)
    (hy0 : y0 = doe / 366)
    (hyoe : yoe = if y0 + 1 ≤ 399 ∧ 365 * (y0 + 1) + (y0 + 1) / 4 - (y0 + 1) / 100 ≤ doe
                  then y0 + 1 else y0) :
    0 ≤ yoe ∧ yoe ≤ 399 ∧ 0 ≤ doe - (365 * yoe + yoe / 4 - yoe / 100) ∧
      doe - (365 * yoe + yoe / 4 - yoe / 100) ≤ 365 := by
  split_ifs at hyoe with h
  · subst hyoe; omega
  · subst hyoe; omega

theorem md_step (doy mp d : Int) (h0 : 0 ≤ doy) (h1 : doy ≤ 365)
    (hmp : mp = (5 * doy + 2) / 153) (hd : d = doy - (153 * mp + 2) / 5 + 1) :
    0 ≤ mp ∧ mp ≤ 11 ∧ 1 ≤ d ∧ d ≤ 31 ∧ (153 * mp + 2) / 5 + d - 1 = doy := by
  omega

/-- Evaluation of `daysFromCivil` on a March-December date written with an
explicit era decomposition of the year. -/
theorem daysFromCivil_mar (era yoe m d : Int) (h1 : 0 ≤ yoe) (h2 : yoe ≤ 399)
    (h3 : 3 ≤ m) (h4 : m ≤ 12) :
    daysFromCivil (yoe + era * 400) m d =
      era * 146097 + (yoe * 365 + yoe / 4 - yoe / 100 + ((153 * (m - 3) + 2) / 5 + d - 1))
        - 719468 := by
  simp only [daysFromCivil]
  split_ifs <;> omega

/-- Evaluation of `daysFromCivil` on a January-February date written with an
explicit era decomposition of the (shifted) year. -/
theorem daysFromCivil_jan (era yoe m d : Int) (h1 : 0 ≤ yoe) (h2 : yoe ≤ 399)
    (h3 : 1 ≤ m) (h4 : m ≤ 2) :
    daysFromCivil (yoe + era * 400 + 1) m d =
      era * 146097 + (yoe * 365 + yoe / 4 - yoe / 100 + ((153 * (m + 9) + 2) / 5 + d - 1))
        - 719468 := by
  simp only [daysFromCivil]
  split_ifs <;> omega

theorem civilFromDays_eq (z : Int) :
    civilFromDays z =
      (let zz := z + 719468
       let era := zz / 146097
       let doe := zz - era * 146097
       let y0 := doe / 366
       let yoe := if y0 + 1 ≤ 399 ∧ 365 * (y0 + 1) + (y0 + 1) / 4 - (y0 + 1) / 100 ≤ doe
                  then y0 + 1 else y0
       let doy := doe - (365 * yoe + yoe / 4 - yoe / 100)
       let mp := (5 * doy + 2) / 153
       let d := doy - (153 * mp + 2) / 5 + 1
       let m := mp + (if mp < 10 then 3 else -9)
       (yoe + era * 400 + (if m ≤ 2 then 1 else 0), m, d)) := rfl

/-- The civil triple of a day number evaluates back to that day number,
its month is a real month, its day a real day-of-month, and a year in
`[100, 9999]` pins the day number into a fixed bounded range. -/
theorem civil_spec (z : Int) :
    daysFromCivil (civilFromDays z).1 (civilFromDays z).2.1 (civilFromDays z).2.2 = z ∧
      1 ≤ (civilFromDays z).2.1 ∧ (civilFromDays z).2.1 ≤ 12 ∧
      1 ≤ (civilFromDays z).2.2 ∧ (civilFromDays z).2.2 ≤ 31 ∧
      (100 ≤ (civilFromDays z).1 → (civilFromDays z).1 ≤ 9999 →
        -865565 ≤ z ∧ z ≤ 2932956) := by
  rw [civilFromDays_eq]
  simp only []
  set zz := z + 719468 with hzz
  set era := zz / 146097 with hera
  set doe := zz - era * 146097 with hdoe
  set y0 := doe / 366 with hy0
  set yoe := (if y0 + 1 ≤ 399 ∧ 365 * (y0 + 1) + (y0 + 1) / 4 - (y0 + 1) / 100 ≤ doe
              then y0 + 1 else y0) with hyoe
  set doy := doe - (365 * yoe + yoe / 4 - yoe / 100) with hdoy
  set mp := (5 * doy + 2) / 153 with hmp
  set d := doy - (153 * mp + 2) / 5 + 1 with hd
  have hdoe1 : 0 ≤ doe ∧ doe ≤ 146096 := by rw [hdoe, hera]; omega
  have hyoe1 := yoe_step doe y0 yoe hdoe1.1 hdoe1.2 hy0 hyoe
  have hdoy1 : 0 ≤ doy ∧ doy ≤ 365 := by
    constructor
    · rw [hdoy]; exact hyoe1.2.2.1
    · rw [hdoy]; exact hyoe1.2.2.2
  have hmd := md_step doy mp d hdoy1.1 hdoy1.2 hmp hd
  have hz : z = era * 146097 + doe - 719468 := by omega
  by_cases hc : mp < 10
  · have hms : mp + (if mp < 10 then 3 else -9) = mp + 3 := by rw [if_pos hc]
    rw [hms]
    have hadj : (if mp + 3 ≤ 2 then (1:Int) else 0) = 0 := by
      rw [if_neg (by omega)]
    rw [hadj, add_zero]
    refine ⟨?_, by omega, by omega, hmd.2.2.1, hmd.2.2.2.1, by omega⟩
    rw [daysFromCivil_mar era yoe (mp + 3) d hyoe1.1 hyoe1.2.1 (by omega) (by omega)]
    have h3 : mp + 3 - 3 = mp := by omega
    rw [h3]
    omega
  · have hms : mp + (if mp < 10 then 3 else -9) = mp - 9 := by rw [if_neg hc]; ring
    rw [hms]
    have hadj : (if mp - 9 ≤ 2 then (1:Int) else 0) = 1 := by
      rw [if_pos (by omega)]
    rw [hadj]
    refine ⟨?_, by omega, by omega, hmd.2.2.1, hmd.2.2.2.1, by omega⟩
    rw [daysFromCivil_jan era yoe (mp - 9) d hyoe1.1 hyoe1.2.1 (by omega) (by omega)]
    have h9 : mp - 9 + 9 = mp := by omega
    rw [h9]
    omega

/-- Round trip: converting a day number to its civil triple and back is
the identity. -/
theorem daysFromCivil_civilFromDays (z : Int) :
    daysFromCivil (civilFromDays z).1 (civilFromDays z).2.1 (civilFromDays z).2.2 = z :=
  (civil_spec z).1

theorem civilFromDays_month_valid (z : Int) :
    1 ≤ (civilFromDays z).2.1 ∧ (civilFromDays z).2.1 ≤ 12 :=
  ⟨(civil_spec z).2.1, (civil_spec z).2.2.1⟩

theorem civilFromDays_dom_valid (z : Int) :
    1 ≤ (civilFromDays z).2.2 ∧ (civilFromDays z).2.2 ≤ 31 :=
  ⟨(civil_spec z).2.2.2.1, (civil_spec z).2.2.2.2.1⟩

/-- A day number with year in `[100, 9999]` is small. -/
theorem safeDay_bound (z : Int) (h : safeDay z) : -865565 ≤ z ∧ z ≤ 2932956 :=
  (civil_spec z).2.2.2.2.2 h.1 h.2

/-- The day-of-month enters `daysFromCivil` as a plain offset. -/
theorem daysFromCivil_day (y m d : Int) :
    daysFromCivil y m d = daysFromCivil y m 1 + (d - 1) := by
  simp only [daysFromCivil]
  split_ifs <;> omega

/-- `Date.UTC` on a 4-digit-year civil date with a real month is
`daysFromCivil` (no two-digit-year mapping, no month rollover). -/
theorem utcDays_of_valid (y m d : Int) (h1 : 100 ≤ y) (h2 : 1 ≤ m) (h3 : m ≤ 12) :
    utcDays y (m - 1) d = daysFromCivil y m d := by
  simp only [utcDays]
  have hy : (if 0 ≤ y ∧ y ≤ 99 then y + 1900 else y) = y := by
    rw [if_neg (by omega)]
  have hdv : (m - 1) / 12 = 0 := by omega
  have hmv : (m - 1) % 12 = m - 1 := by omega
  rw [hy, hdv, hmv, add_zero]
  have hm1 : m - 1 + 1 = m := by omega
  rw [hm1, daysFromCivil_day y m d]

/-! ## Digit strings -/

theorem digitChar_isDigit (n : Nat) : isDigit (digitChar n) = true := by
  unfold digitChar
  split_ifs <;> decide

theorem digitChar_val (n : Nat) (h : n ≤ 9) : (digitChar n).toNat - 48 = n := by
  interval_cases n <;> decide

theorem isDigit_not_dash {c : Char} (h : isDigit c = true) : ¬ c = '-' := by
  intro he; subst he; exact absurd h (by decide)

theorem isDigit_not_plus {c : Char} (h : isDigit c = true) : ¬ c = '+' := by
  intro he; subst he; exact absurd h (by decide)

theorem isDigit_not_space {c : Char} (h : isDigit c = true) : ¬ c = ' ' := by
  intro he; subst he; exact absurd h (by decide)

theorem natDigitsAux_all (f n : Nat) : (natDigitsAux f n).all isDigit = true := by
  induction f generalizing n with
  | zero => rfl
  | succ f ih =>
    simp only [natDigitsAux]
    split_ifs with h
    · rfl
    · simp [List.all_append, ih, digitChar_isDigit]

theorem digitsOf_all (n : Nat) : (digitsOf n).all isDigit = true :=
  natDigitsAux_all n n

theorem valDigits_append_one (xs : JStr) (c : Char) :
    valDigits (xs ++ [c]) = 10 * valDigits xs + (c.toNat - 48) := by
  simp [valDigits, List.foldl_append]

theorem valDigits_natDigitsAux (f n : Nat) (h : n ≤ f) :
    valDigits (natDigitsAux f n) = n := by
  induction f generalizing n with
  | zero =>
    interval_cases n
    rfl
  | succ f ih =>
    simp only [natDigitsAux]
    split_ifs with h0
    · rw [h0]; rfl
    · rw [valDigits_append_one, ih (n / 10) (by omega), digitChar_val (n % 10) (by omega)]
      omega

theorem valDigits_digitsOf (n : Nat) : valDigits (digitsOf n) = n :=
  valDigits_natDigitsAux n n le_rfl

theorem foldl_val_zeros (k : Nat) :
    List.foldl (fun a c => 10 * a + (c.toNat - 48)) 0 (List.replicate k '0') = 0 := by
  induction k with
  | zero => rfl
  | succ k ih =>
    simp only [List.replicate_succ, List.foldl_cons]
    have h0 : 10 * 0 + ('0'.toNat - 48) = 0 := by decide
    rw [h0]
    exact ih

theorem valDigits_zeros_append (k : Nat) (ds : JStr) :
    valDigits (List.replicate k '0' ++ ds) = valDigits ds := by
  simp only [valDigits, List.foldl_append, foldl_val_zeros]

theorem valDigits_padNum (w : Nat) (n : Int) (h : 0 ≤ n) :
    ((valDigits (padNum w n) : Nat) : Int) = n := by
  simp only [padNum, valDigits_zeros_append, valDigits_digitsOf]
  exact Int.toNat_of_nonneg h

theorem padNum_all (w : Nat) (n : Int) : (padNum w n).all isDigit = true := by
  simp only [padNum, List.all_append, Bool.and_eq_true]
  refine ⟨?_, digitsOf_all n.toNat⟩
  simp only [List.all_eq_true]
  intro c hc
  rw [List.eq_of_mem_replicate hc]
  decide

theorem padNum_ne_nil (w : Nat) (n : Int) (h : 1 ≤ w) : padNum w n ≠ [] := by
  intro hc
  have hlen := congrArg List.length hc
  simp only [padNum, List.length_append, List.length_replicate, List.length_nil] at hlen
  omega

theorem padNum_no_dash (w : Nat) (n : Int) : ∀ c ∈ padNum w n, c ≠ '-' :=
  fun c hc => isDigit_not_dash (List.all_eq_true.mp (padNum_all w n) c hc)

/-! ## Parsing digit strings -/

theorem takeWhile_all_digits (l : JStr) (h : l.all isDigit = true) :
    l.takeWhile isDigit = l := by
  induction l with
  | nil => rfl
  | cons c cs ih =>
    simp only [List.all_cons, Bool.and_eq_true] at h
    simp [List.takeWhile_cons, h.1, ih h.2]

theorem dropWhile_space_digits (l : JStr) (h : l.all isDigit = true) :
    l.dropWhile (fun c => c = ' ') = l := by
  cases l with
  | nil => rfl
  | cons c cs =>
    simp only [List.all_cons, Bool.and_eq_true] at h
    have hs : ¬ c = ' ' := isDigit_not_space h.1
    simp [List.dropWhile_cons, hs]

theorem parseIntCs_digits (l : JStr) (hne : l ≠ []) (h : l.all isDigit = true) :
    parseIntCs l = some ((valDigits l : Nat) : Int) := by
  unfold parseIntCs
  rw [dropWhile_space_digits l h]
  cases l with
  | nil => exact absurd rfl hne
  | cons c cs =>
    have hall := h
    simp only [List.all_cons, Bool.and_eq_true] at h
    simp only [if_neg (isDigit_not_dash h.1), if_neg (isDigit_not_plus h.1)]
    rw [takeWhile_all_digits _ hall]
    simp

theorem numberJS_digits (l : JStr) (hne : l ≠ []) (h : l.all isDigit = true) :
    numberJS l = some ((valDigits l : Nat) : Int) := by
  unfold numberJS
  rw [dropWhile_space_digits l h]
  cases l with
  | nil => exact absurd rfl hne
  | cons c cs =>
    have hall := h
    simp only [List.all_cons, Bool.and_eq_true] at h
    simp only [if_neg (isDigit_not_dash h.1), if_neg (isDigit_not_plus h.1)]
    rw [if_pos hall]

theorem parseIntCs_padNum (w : Nat) (n : Int) (hw : 1 ≤ w) (hn : 0 ≤ n) :
    parseIntCs (padNum w n) = some n := by
  rw [parseIntCs_digits (padNum w n) (padNum_ne_nil w n hw) (padNum_all w n),
    valDigits_padNum w n hn]

theorem numberJS_padNum (w : Nat) (n : Int) (hw : 1 ≤ w) (hn : 0 ≤ n) :
    numberJS (padNum w n) = some n := by
  rw [numberJS_digits (padNum w n) (padNum_ne_nil w n hw) (padNum_all w n),
    valDigits_padNum w n hn]

/-! ## Splitting on dashes -/

theorem splitDash_no_dash (l : JStr) (h : ∀ c ∈ l, c ≠ '-') : splitDash l = [l] := by
  induction l with
  | nil => rfl
  | cons c cs ih =>
    simp only [splitDash]
    rw [if_neg (h c (List.mem_cons_self c cs))]
    rw [ih (fun x hx => h x (List.mem_cons_of_mem c hx))]

theorem splitDash_append (a r : JStr) (h : ∀ c ∈ a, c ≠ '-') :
    splitDash (a ++ '-' :: r) = a :: splitDash r := by
  induction a with
  | nil =>
    simp [List.nil_append, splitDash]
  | cons c cs ih =>
    simp only [List.cons_append, splitDash, List.append_eq]
    rw [if_neg (h c (List.mem_cons_self c cs))]
    rw [ih (fun x hx => h x (List.mem_cons_of_mem c hx))]

/-! ## Printing and re-parsing dates -/

theorem toISOdate_safe (z : Int) (h : safeDay z) :
    toISOdate z = padNum 4 (civilFromDays z).1 ++
      ('-' :: (padNum 2 (civilFromDays z).2.1 ++ ('-' :: padNum 2 (civilFromDays z).2.2))) := by
  have hy1 := h.1
  have hy2 := h.2
  simp only [toISOdate]
  rw [if_pos (⟨by omega, hy2⟩ : 0 ≤ (civilFromDays z).1 ∧ (civilFromDays z).1 ≤ 9999)]
  simp [List.cons_append, List.append_assoc]

theorem splitDash_toISO (z : Int) (h : safeDay z) :
    splitDash (toISOdate z) =
      [padNum 4 (civilFromDays z).1, padNum 2 (civilFromDays z).2.1,
        padNum 2 (civilFromDays z).2.2] := by
  rw [toISOdate_safe z h]
  rw [splitDash_append _ _ (padNum_no_dash 4 (civilFromDays z).1)]
  rw [splitDash_append _ _ (padNum_no_dash 2 (civilFromDays z).2.1)]
  rw [splitDash_no_dash _ (padNum_no_dash 2 (civilFromDays z).2.2)]

theorem jsDateUTC_civil (z : Int) (h : safeDay z) :
    jsDateUTC (civilFromDays z).1 ((civilFromDays z).2.1 - 1) (civilFromDays z).2.2 =
      some z := by
  have hm := civilFromDays_month_valid z
  have hb := safeDay_bound z h
  unfold jsDateUTC
  rw [utcDays_of_valid _ _ _ h.1 hm.1 hm.2, daysFromCivil_civilFromDays]
  rw [if_neg (by omega)]

theorem boundOfStr_toISO (z : Int) (h : safeDay z) :
    boundOfStr (toISOdate z) = some z := by
  have hy : (0:Int) ≤ (civilFromDays z).1 := by have := h.1; omega
  have hm := civilFromDays_month_valid z
  have hd := civilFromDays_dom_valid z
  unfold boundOfStr
  rw [splitDash_toISO z h]
  simp only [numAt, List.get?]
  rw [numberJS_padNum 4 _ (by omega) hy, numberJS_padNum 2 _ (by omega) (by omega),
    numberJS_padNum 2 _ (by omega) (by omega)]
  simp only [Option.bind_eq_bind, Option.some_bind]
  exact jsDateUTC_civil z h

theorem dbDate_toISO (z : Int) (h : safeDay z) : dbDate (toISOdate z) = some z := by
  have hy : (0:Int) ≤ (civilFromDays z).1 := by have := h.1; omega
  have hm := civilFromDays_month_valid z
  have hd := civilFromDays_dom_valid z
  unfold dbDate
  rw [splitDash_toISO z h]
  simp only [numberJS_padNum 4 _ (by omega) hy, numberJS_padNum 2 _ (by omega) (by omega : (0:Int) ≤ (civilFromDays z).2.1),
    numberJS_padNum 2 _ (by omega) (by omega : (0:Int) ≤ (civilFromDays z).2.2)]
  rw [daysFromCivil_civilFromDays]

theorem addDays_toISO (z n : Int) (h : safeDay z) (hr1 : -100000000 ≤ z + n)
    (hr2 : z + n ≤ 100000000) :
    addDays (toISOdate z) n = some (toISOdate (z + n)) := by
  have hy : (0:Int) ≤ (civilFromDays z).1 := by have := h.1; omega
  have hm := civilFromDays_month_valid z
  have hd := civilFromDays_dom_valid z
  unfold addDays
  rw [splitDash_toISO z h]
  simp only [intAt, List.get?]
  rw [parseIntCs_padNum 4 _ (by omega) hy, parseIntCs_padNum 2 _ (by omega) (by omega),
    parseIntCs_padNum 2 _ (by omega) (by omega)]
  simp only [Option.bind_eq_bind, Option.some_bind]
  rw [jsDateUTC_civil z h]
  simp only [Option.bind_eq_bind, Option.some_bind]
  have ht2 : daysFromCivil (civilFromDays z).1 (civilFromDays z).2.1 1 +
      ((civilFromDays z).2.2 + n - 1) = z + n := by
    have h1 := daysFromCivil_day (civilFromDays z).1 (civilFromDays z).2.1 (civilFromDays z).2.2
    have h2 := daysFromCivil_civilFromDays z
    omega
  rw [ht2]
  rw [if_neg (by omega)]
  rfl

theorem getDaysArray_toISO (a b : Int) (ha : safeDay a) (hb : safeDay b) :
    getDaysArray (toISOdate a) (toISOdate b) = daysRange a b := by
  unfold getDaysArray
  rw [boundOfStr_toISO a ha, boundOfStr_toISO b hb]

theorem toISOdate_inj (a b : Int) (ha : safeDay a) (hb : safeDay b)
    (he : toISOdate a = toISOdate b) : a = b := by
  have h1 := dbDate_toISO a ha
  rw [he, dbDate_toISO b hb] at h1
  exact (Option.some.inj h1).symm

theorem dateEqB_toISO (a b : Int) (ha : safeDay a) (hb : safeDay b) :
    dateEqB (toISOdate a) (toISOdate b) = decide (a = b) := by
  unfold dateEqB
  rw [dbDate_toISO a ha, dbDate_toISO b hb]

theorem dateGtB_toISO (a b : Int) (ha : safeDay a) (hb : safeDay b) :
    dateGtB (toISOdate a) (toISOdate b) = decide (b < a) := by
  unfold dateGtB
  rw [dbDate_toISO a ha, dbDate_toISO b hb]

/-! ## The enumerated day sequence -/

theorem daysRangeAux_length (n : Nat) (dt : Int) : (daysRangeAux n dt).length = n := by
  induction n generalizing dt with
  | zero => rfl
  | succ n ih => simp [daysRangeAux, ih]

theorem daysRange_length (a b : Int) : (daysRange a b).length = (b + 1 - a).toNat := by
  simp [daysRange, daysRangeAux_length]

theorem daysRangeAux_get? (n : Nat) (dt : Int) (i : Nat) (h : i < n) :
    (daysRangeAux n dt).get? i = some (dt + i) := by
  induction n generalizing dt i with
  | zero => omega
  | succ n ih =>
    cases i with
    | zero => simp [daysRangeAux]
    | succ i =>
      simp only [daysRangeAux, List.get?]
      rw [ih (dt + 1) i (by omega)]
      congr 1
      push_cast
      omega

theorem daysRange_get? (a b : Int) (i : Nat) (h : (i : Int) < b + 1 - a) :
    (daysRange a b).get? i = some (a + i) := by
  apply daysRangeAux_get?
  omega

theorem daysRange_empty (a b : Int) (h : b < a) : daysRange a b = [] := by
  have h1 : (b + 1 - a).toNat = 0 := by omega
  rw [daysRange, h1]
  rfl

/-- The count-based presentation satisfies the loop equation of the
`while (dt <= endDt)` loop in `getDaysArray`. -/
theorem daysRange_loop (a b : Int) :
    daysRange a b = if a ≤ b then a :: daysRange (a + 1) b else [] := by
  split_ifs with h
  · have h1 : (b + 1 - a).toNat = (b + 1 - (a + 1)).toNat + 1 := by omega
    rw [daysRange, daysRange, h1]
    rfl
  · exact daysRange_empty a b (by omega)

theorem daysRangeAux_mem (n : Nat) (dt x : Int) (h : x ∈ daysRangeAux n dt) :
    dt ≤ x ∧ x < dt + n := by
  induction n generalizing dt with
  | zero => simp [daysRangeAux] at h
  | succ n ih =>
    simp only [daysRangeAux, List.mem_cons] at h
    rcases h with h | h
    · omega
    · have := ih (dt + 1) h
      omega

theorem daysRangeAux_pairwise (n : Nat) (dt : Int) :
    (daysRangeAux n dt).Pairwise (fun x y => x < y) := by
  induction n generalizing dt with
  | zero => exact List.Pairwise.nil
  | succ n ih =>
    simp only [daysRangeAux, List.pairwise_cons]
    exact ⟨fun y hy => by have := daysRangeAux_mem n (dt + 1) y hy; omega, ih (dt + 1)⟩

theorem daysRange_pairwise (a b : Int) : (daysRange a b).Pairwise (fun x y => x < y) :=
  daysRangeAux_pairwise _ a

/-! ## Persistence-command machinery -/

theorem mapM_eq_map_of_some {α β : Type} (f : α → Option β) (g : α → β) (l : List α)
    (h : ∀ a ∈ l, f a = some (g a)) : l.mapM f = some (l.map g) := by
  induction l with
  | nil => rfl
  | cons a as ih =>
    rw [List.mapM_cons, h a (List.mem_cons_self a as),
      ih (fun x hx => h x (List.mem_cons_of_mem a hx))]
    rfl

theorem runOps_append (st : AppState) (ops1 ops2 : List DbOp) :
    runOps st (ops1 ++ ops2) = runOps (runOps st ops1) ops2 :=
  List.foldl_append _ _ _ _

theorem applyActOps_append (l1 l2 : List DbOp) (a : Activity) :
    applyActOps (l1 ++ l2) a = applyActOps l2 (applyActOps l1 a) :=
  List.foldl_append _ _ _ _

theorem applyActOps_id_eq (ops : List DbOp) (a : Activity) :
    (applyActOps ops a).id = a.id := by
  induction ops generalizing a with
  | nil => rfl
  | cons op ops ih =>
    cases op with
    | updateActDate i nd =>
      have h1 : applyActOps (DbOp.updateActDate i nd :: ops) a =
          applyActOps ops (if a.id = i then { a with date := nd } else a) := rfl
      rw [h1, ih]
      split_ifs <;> rfl
    | deleteActs tid dd =>
      have h1 : applyActOps (DbOp.deleteActs tid dd :: ops) a = applyActOps ops a := rfl
      rw [h1, ih]
    | updateTrip tid ns ne =>
      have h1 : applyActOps (DbOp.updateTrip tid ns ne :: ops) a = applyActOps ops a := rfl
      rw [h1, ih]

theorem applyActOps_no_match (ops : List DbOp) (a : Activity)
    (h : ∀ i nd, DbOp.updateActDate i nd ∈ ops → i ≠ a.id) : applyActOps ops a = a := by
  induction ops with
  | nil => rfl
  | cons op ops ih =>
    cases op with
    | updateActDate i nd =>
      have h1 : applyActOps (DbOp.updateActDate i nd :: ops) a =
          applyActOps ops (if a.id = i then { a with date := nd } else a) := rfl
      rw [h1, if_neg (fun he => h i nd (List.mem_cons_self _ _) he.symm)]
      exact ih (fun i2 nd2 hm => h i2 nd2 (List.mem_cons_of_mem _ hm))
    | deleteActs tid dd =>
      have h1 : applyActOps (DbOp.deleteActs tid dd :: ops) a = applyActOps ops a := rfl
      rw [h1]
      exact ih (fun i2 nd2 hm => h i2 nd2 (List.mem_cons_of_mem _ hm))
    | updateTrip tid ns ne =>
      have h1 : applyActOps (DbOp.updateTrip tid ns ne :: ops) a = applyActOps ops a := rfl
      rw [h1]
      exact ih (fun i2 nd2 hm => h i2 nd2 (List.mem_cons_of_mem _ hm))

theorem applyActOps_found (pre post : List DbOp) (nd : JStr) (a : Activity)
    (hpre : ∀ i nd2, DbOp.updateActDate i nd2 ∈ pre → i ≠ a.id)
    (hpost : ∀ i nd2, DbOp.updateActDate i nd2 ∈ post → i ≠ a.id) :
    applyActOps (pre ++ DbOp.updateActDate a.id nd :: post) a = { a with date := nd } := by
  rw [applyActOps_append, applyActOps_no_match pre a hpre]
  have h1 : applyActOps (DbOp.updateActDate a.id nd :: post) a =
      applyActOps post (if a.id = a.id then { a with date := nd } else a) := rfl
  rw [h1, if_pos rfl]
  exact applyActOps_no_match post _ (fun i nd2 hm he => hpost i nd2 hm he)

theorem runOps_shifts (st : AppState) (ops : List DbOp)
    (h : ∀ op ∈ ops, ∃ i nd, op = .updateActDate i nd) :
    runOps st ops = { st with activities := st.activities.map (applyActOps ops) } := by
  induction ops generalizing st with
  | nil =>
    show st = _
    have h0 : st.activities.map (applyActOps []) = st.activities :=
      List.map_id'' (fun _ => rfl) st.activities
    rw [h0]
  | cons op ops ih =>
    obtain ⟨i, nd, rfl⟩ := h op (List.mem_cons_self op ops)
    show runOps (applyOp st _) ops = _
    rw [ih (applyOp st _) (fun x hx => h x (List.mem_cons_of_mem _ hx))]
    show ({ st with activities := (st.activities.map _).map _ } : AppState) = _
    rw [List.map_map]
    rfl

/-! ## Evaluating the remove-day engine, branch by branch -/

theorem handleRemoveDay_start (trip : Trip) (acts : List Activity) (d : JStr)
    (hs : d = trip.startDate) (ns : JStr) (hns : addDays trip.startDate 1 = some ns) :
    handleRemoveDay trip acts d =
      some [.deleteActs trip.id d, .updateTrip trip.id ns trip.endDate] := by
  unfold handleRemoveDay
  rw [if_pos hs, hns]
  rfl

theorem handleRemoveDay_end (trip : Trip) (acts : List Activity) (d : JStr)
    (hs : ¬ d = trip.startDate) (he : d = trip.endDate) (ne : JStr)
    (hne : addDays trip.endDate (-1) = some ne) :
    handleRemoveDay trip acts d =
      some [.deleteActs trip.id d, .updateTrip trip.id trip.startDate ne] := by
  unfold handleRemoveDay
  rw [if_neg hs, if_pos he, hne]
  rfl

theorem handleRemoveDay_interior (trip : Trip) (acts : List Activity) (d : JStr)
    (hs : ¬ d = trip.startDate) (he : ¬ d = trip.endDate)
    (g : Activity → JStr)
    (hg : ∀ a ∈ acts, a.tripId = trip.id → dateGtB a.date d = true →
      addDays a.date (-1) = some (g a))
    (ne : JStr) (hne : addDays trip.endDate (-1) = some ne) :
    handleRemoveDay trip acts d =
      some (.deleteActs trip.id d ::
        (((acts.filter fun a => !(a.tripId = trip.id ∧ dateEqB a.date d)).filter
            fun a => a.tripId = trip.id ∧ dateGtB a.date d).map
              (fun a => DbOp.updateActDate a.id (g a)) ++
          [.updateTrip trip.id trip.startDate ne])) := by
  unfold handleRemoveDay
  rw [if_neg hs, if_neg he]
  dsimp only
  rw [mapM_eq_map_of_some _ (fun a => DbOp.updateActDate a.id (g a)) _ ?hf]
  case hf =>
    intro a ha
    have h1 := List.of_mem_filter ha
    have h2 := List.mem_of_mem_filter ha
    have h3 := List.mem_of_mem_filter h2
    simp only [decide_eq_true_eq, Bool.and_eq_true] at h1
    rw [hg a h3 h1.1 h1.2]
    rfl
  rw [hne]
  rfl

/-! ## The store state after a removal -/

theorem removeDay_start (st : AppState) (trip : Trip) (d : JStr)
    (hs : d = trip.startDate) (ns : JStr) (hns : addDays trip.startDate 1 = some ns) :
    removeDay st trip d = some
      { trips := handleUpdateTripDates st.trips trip.id ns trip.endDate,
        activities :=
          st.activities.filter fun a => !(a.tripId = trip.id ∧ dateEqB a.date d) } := by
  unfold removeDay
  rw [handleRemoveDay_start trip st.activities d hs ns hns]
  rfl

theorem removeDay_end (st : AppState) (trip : Trip) (d : JStr)
    (hs : ¬ d = trip.startDate) (he : d = trip.endDate) (ne : JStr)
    (hne : addDays trip.endDate (-1) = some ne) :
    removeDay st trip d = some
      { trips := handleUpdateTripDates st.trips trip.id trip.startDate ne,
        activities :=
          st.activities.filter fun a => !(a.tripId = trip.id ∧ dateEqB a.date d) } := by
  unfold removeDay
  rw [handleRemoveDay_end trip st.activities d hs he ne hne]
  rfl

theorem removeDay_interior (st : AppState) (trip : Trip) (d : JStr)
    (hs : ¬ d = trip.startDate) (he : ¬ d = trip.endDate)
    (g : Activity → JStr)
    (hg : ∀ a ∈ st.activities, a.tripId = trip.id → dateGtB a.date d = true →
      addDays a.date (-1) = some (g a))
    (ne : JStr) (hne : addDays trip.endDate (-1) = some ne)
    (hnd : (st.activities.map fun a => a.id).Nodup) :
    removeDay st trip d = some
      { trips := handleUpdateTripDates st.trips trip.id trip.startDate ne,
        activities :=
          (st.activities.filter fun a => !(a.tripId = trip.id ∧ dateEqB a.date d)).map
            fun a => if a.tripId = trip.id ∧ dateGtB a.date d = true
                     then { a with date := g a } else a } := by
  unfold removeDay
  rw [handleRemoveDay_interior trip st.activities d hs he g hg ne hne]
  simp only [Option.map_some']
  congr 1
  set acts1 := st.activities.filter
    (fun a => !(a.tripId = trip.id ∧ dateEqB a.date d)) with hacts1
  set shifts := (acts1.filter fun a => a.tripId = trip.id ∧ dateGtB a.date d).map
    (fun a => DbOp.updateActDate a.id (g a)) with hshifts
  have hnd1 : (acts1.map fun a => a.id).Nodup := by
    refine List.Nodup.sublist (List.Sublist.map _ ?_) hnd
    rw [hacts1]
    exact List.filter_sublist st.activities
  have hrun : runOps st (DbOp.deleteActs trip.id d ::
      (shifts ++ [DbOp.updateTrip trip.id trip.startDate ne])) =
      runOps { st with activities := acts1 }
        (shifts ++ [DbOp.updateTrip trip.id trip.startDate ne]) := rfl
  rw [hrun, runOps_append]
  have hsel : ∀ op ∈ shifts, ∃ i nd, op = DbOp.updateActDate i nd := by
    intro op hop
    rw [hshifts] at hop
    obtain ⟨a, _, rfl⟩ := List.mem_map.mp hop
    exact ⟨a.id, g a, rfl⟩
  rw [runOps_shifts _ shifts hsel]
  have hmap : acts1.map (applyActOps shifts) =
      acts1.map fun a => if a.tripId = trip.id ∧ dateGtB a.date d = true
                         then { a with date := g a } else a := by
    apply List.map_congr_left
    intro a ha
    by_cases hp : a.tripId = trip.id ∧ dateGtB a.date d = true
    · rw [if_pos hp]
      have hmem : a ∈ acts1.filter fun a => a.tripId = trip.id ∧ dateGtB a.date d :=
        List.mem_filter.mpr ⟨ha, by simpa using hp⟩
      obtain ⟨u, v, huv⟩ := List.append_of_mem hmem
      have hfsplit : acts1.filter (fun a => a.tripId = trip.id ∧ dateGtB a.date d) =
          u ++ a :: v := huv
      have hnd2 : ((u ++ a :: v).map fun a => a.id).Nodup := by
        rw [← hfsplit]
        refine List.Nodup.sublist (List.Sublist.map _ ?_) hnd1
        exact List.filter_sublist acts1
      rw [List.map_append, List.map_cons] at hnd2
      have hmid := List.nodup_middle.mp hnd2
      have hnomem : a.id ∉ (u.map fun a => a.id) ++ (v.map fun a => a.id) :=
        (List.nodup_cons.mp hmid).1
      rw [hshifts, hfsplit, List.map_append, List.map_cons]
      exact applyActOps_found _ _ _ a
        (by
          intro i nd hm he2
          obtain ⟨b, hb, hbe⟩ := List.mem_map.mp hm
          apply hnomem
          rw [List.mem_append]
          left
          have hbid : b.id = i := by
            have := congrArg (fun op => match op with
              | DbOp.updateActDate j _ => j
              | _ => 0) hbe
            simpa using this
          rw [← he2, ← hbid]
          exact List.mem_map.mpr ⟨b, hb, rfl⟩)
        (by
          intro i nd hm he2
          obtain ⟨b, hb, hbe⟩ := List.mem_map.mp hm
          apply hnomem
          rw [List.mem_append]
          right
          have hbid : b.id = i := by
            have := congrArg (fun op => match op with
              | DbOp.updateActDate j _ => j
              | _ => 0) hbe
            simpa using this
          rw [← he2, ← hbid]
          exact List.mem_map.mpr ⟨b, hb, rfl⟩)
    · rw [if_neg hp]
      apply applyActOps_no_match
      intro i nd hm he2
      rw [hshifts] at hm
      obtain ⟨b, hb, hbe⟩ := List.mem_map.mp hm
      have hbid : b.id = i := by
        have := congrArg (fun op => match op with
          | DbOp.updateActDate j _ => j
          | _ => 0) hbe
        simpa using this
      have hbmem := List.mem_of_mem_filter hb
      have hbeq : b = a := List.inj_on_of_nodup_map hnd1 hbmem ha (by rw [hbid, he2])
      apply hp
      have := List.of_mem_filter hb
      rw [hbeq] at this
      simpa using this
  rw [hmap]
  rfl

/-! ## Small helpers on canonical dates -/

theorem addDays_toISO_back (k : Int) (h : safeDay k) :
    addDays (toISOdate k) (-1) = some (toISOdate (k - 1)) := by
  have hb := safeDay_bound k h
  have h1 := addDays_toISO k (-1) h (by omega) (by omega)
  rw [show k + -1 = k - 1 by ring] at h1
  exact h1

theorem addDays_toISO_fwd (k : Int) (h : safeDay k) :
    addDays (toISOdate k) 1 = some (toISOdate (k + 1)) := by
  have hb := safeDay_bound k h
  exact addDays_toISO k 1 h (by omega) (by omega)

theorem canonicalAct_elim (a : Activity) (h : canonicalAct a) :
    ∃ k, safeDay k ∧ a.date = toISOdate k :=
  ⟨(dbDate a.date).getD 0, h.1, h.2⟩

theorem toISOdate_ne (a b : Int) (ha : safeDay a) (hb : safeDay b) (hne : a ≠ b) :
    ¬ toISOdate a = toISOdate b :=
  fun he => hne (toISOdate_inj a b ha hb he)

theorem mapM_mem {α β : Type} (f : α → Option β) (l : List α) (l2 : List β)
    (h : l.mapM f = some l2) : ∀ b ∈ l2, ∃ a ∈ l, f a = some b := by
  induction l generalizing l2 with
  | nil =>
    simp only [List.mapM_nil] at h
    cases h
    intro b hb
    simp at hb
  | cons a as ih =>
    rw [List.mapM_cons] at h
    cases hfa : f a with
    | none => rw [hfa] at h; simp at h
    | some b0 =>
      rw [hfa] at h
      cases hrest : as.mapM f with
      | none => rw [hrest] at h; simp at h
      | some bs =>
        rw [hrest] at h
        simp only [Option.bind_eq_bind, Option.some_bind, Option.pure_def] at h
        cases h
        intro b hb
        rcases List.mem_cons.mp hb with rfl | hb2
        · exact ⟨a, List.mem_cons_self a as, hfa⟩
        · obtain ⟨a2, ha2, hfa2⟩ := ih bs hrest b hb2
          exact ⟨a2, List.mem_cons_of_mem a ha2, hfa2⟩

/-! ## Ordering of issued commands -/

theorem trace_order (pre : List DbOp) (last : DbOp)
    (hpre : ∀ op ∈ pre, ∀ tid ns ne2, op ≠ DbOp.updateTrip tid ns ne2)
    (hlast : ∀ aid nd, last ≠ DbOp.updateActDate aid nd) :
    ∀ i j op1 op2, (pre ++ [last]).get? i = some op1 → (pre ++ [last]).get? j = some op2 →
      (∃ aid nd, op1 = DbOp.updateActDate aid nd) →
      (∃ tid ns ne2, op2 = DbOp.updateTrip tid ns ne2) → i < j := by
  intro i j op1 op2 hi hj h1 h2
  obtain ⟨aid, nd, rfl⟩ := h1
  obtain ⟨tid, ns, ne2, rfl⟩ := h2
  have hjlen : pre.length ≤ j := by
    by_contra hcon
    push_neg at hcon
    rw [List.get?_append hcon] at hj
    exact hpre _ (List.get?_mem hj) tid ns ne2 rfl
  have hilen : i < pre.length := by
    by_contra hcon
    push_neg at hcon
    have hlen : i < (pre ++ [last]).length := by
      by_contra hcon2
      push_neg at hcon2
      rw [List.get?_eq_none.mpr hcon2] at hi
      cases hi
    rw [List.length_append, List.length_singleton] at hlen
    have hieq : i = pre.length := by omega
    subst hieq
    rw [List.get?_concat_length] at hi
    exact hlast aid nd (Option.some.inj hi)
  omega

/-! ## Claim C6 -/

/-- C6 as stated is false: `[0099-12-31, 0100-01-01]` is a valid two-day
trip (both bounds are real calendar dates and the end is exactly one day
after the start, day numbers -683004 and -683003), yet
`getDaysArray("0099-12-31", "0100-01-01")` returns the empty sequence
instead of a 2-element one — `Date.UTC` maps the two-digit year 99 to
1999, so the parsed start (1999-12-31) lands far beyond the end. -/
theorem c6_counterexample :
    isCanonicalDate ['0', '0', '9', '9', '-', '1', '2', '-', '3', '1'] = true ∧
    isCanonicalDate ['0', '1', '0', '0', '-', '0', '1', '-', '0', '1'] = true ∧
    dbDate ['0', '0', '9', '9', '-', '1', '2', '-', '3', '1'] = some (-683004) ∧
    dbDate ['0', '1', '0', '0', '-', '0', '1', '-', '0', '1'] = some (-683003) ∧
    getDaysArray ['0', '0', '9', '9', '-', '1', '2', '-', '3', '1']
      ['0', '1', '0', '0', '-', '0', '1', '-', '0', '1'] = [] := by
  refine ⟨by decide, by decide, by decide, by decide, by decide⟩

/-- C6 amended: for every trip whose dates are canonical prints of day
numbers with years in `[100, 9999]` and `startDate ≤ endDate`,
`enumerateDays(startDate, endDate)` (the `getDaysArray` utility) returns a
sequence whose length is `endDate - startDate + 1` days, which is strictly
ascending, and in which each element is exactly one day after its
predecessor.  (For valid dates with years 0-99 this fails, per
`c6_counterexample`.) -/
theorem c6_enumerate_days (s e : JStr) (a b : Int)
    (hsa : s = toISOdate a) (heb : e = toISOdate b)
    (ha : safeDay a) (hb : safeDay b) (hab : a ≤ b) :
    (getDaysArray s e).length = (b - a + 1).toNat ∧
      (getDaysArray s e).Pairwise (fun x y => x < y) ∧
      (∀ (i : Nat) (x : Int), (getDaysArray s e).get? i = some x →
        i + 1 < (getDaysArray s e).length →
        (getDaysArray s e).get? (i + 1) = some (x + 1)) := by
  subst hsa heb
  rw [getDaysArray_toISO a b ha hb]
  refine ⟨?_, daysRange_pairwise a b, ?_⟩
  · rw [daysRange_length]
    omega
  · intro i x hx hlen
    rw [daysRange_length] at hlen
    have hi1 : (i : Int) < b + 1 - a := by omega
    have hx2 := daysRange_get? a b i hi1
    rw [hx2] at hx
    have hxe : x = a + i := (Option.some.inj hx).symm
    have hi2 : ((i + 1 : Nat) : Int) < b + 1 - a := by push_cast; omega
    rw [daysRange_get? a b (i + 1) hi2, hxe]
    congr 1
    push_cast
    ring

theorem c6_enumerate_days_witness :
    (getDaysArray (toISOdate 19783) (toISOdate 19785)).length = ((19785 : Int) - 19783 + 1).toNat ∧
      (getDaysArray (toISOdate 19783) (toISOdate 19785)).Pairwise (fun x y => x < y) ∧
      (∀ (i : Nat) (x : Int), (getDaysArray (toISOdate 19783) (toISOdate 19785)).get? i = some x →
        i + 1 < (getDaysArray (toISOdate 19783) (toISOdate 19785)).length →
        (getDaysArray (toISOdate 19783) (toISOdate 19785)).get? (i + 1) = some (x + 1)) :=
  c6_enumerate_days (toISOdate 19783) (toISOdate 19785) 19783 19785 rfl rfl
    (by decide) (by decide) (by decide)

/-! ## Claim C7 -/

/-- C7 as stated is false: for the calendar date `0050-01-01` (year 50)
and `n = 1`, `addDays(addDays(d, 1), -1)` returns `1950-01-01`, not `d` —
`Date.UTC` maps two-digit years `0..99` to `1900..1999`. -/
theorem c7_counterexample :
    ((addDays ['0', '0', '5', '0', '-', '0', '1', '-', '0', '1'] 1).bind
        fun s => addDays s (-1)) =
      some ['1', '9', '5', '0', '-', '0', '1', '-', '0', '1'] ∧
    (['1', '9', '5', '0', '-', '0', '1', '-', '0', '1'] : JStr) ≠
      ['0', '0', '5', '0', '-', '0', '1', '-', '0', '1'] := by
  constructor
  · decide
  · decide

/-- C7 amended: for every calendar date `d` whose year lies in
`[100, 9999]` and every integer `n` for which the shifted date's year also
lies in `[100, 9999]`, `addDays(addDays(d, n), -n) = d`. -/
theorem c7_addDays_roundtrip (k n : Int) (h1 : safeDay k) (h2 : safeDay (k + n)) :
    ((addDays (toISOdate k) n).bind fun s => addDays s (-n)) = some (toISOdate k) := by
  have hb1 := safeDay_bound k h1
  have hb2 := safeDay_bound (k + n) h2
  rw [addDays_toISO k n h1 (by omega) (by omega)]
  simp only [Option.some_bind]
  have he : k + n + -n = k := by ring
  have h3 := addDays_toISO (k + n) (-n) h2 (by omega) (by omega)
  rw [he] at h3
  exact h3

theorem c7_addDays_roundtrip_witness :
    ((addDays (toISOdate 19783) 45).bind fun s => addDays s (-45)) =
      some (toISOdate 19783) :=
  c7_addDays_roundtrip 19783 45 (by decide) (by decide)

/-! ## Claim C8 -/

/-- C8 as stated is false: `2024-02-30` is not a real calendar date
(February 2024 has 29 days), yet `getDaysArray("2024-02-30",
"2024-03-02")` is not empty — `Date.UTC` normalizes the out-of-range day
by rolling it over to 2024-03-01 instead of rejecting it. -/
theorem c8_counterexample :
    isCanonicalDate ['2', '0', '2', '4', '-', '0', '2', '-', '3', '0'] = false ∧
    getDaysArray ['2', '0', '2', '4', '-', '0', '2', '-', '3', '0']
        ['2', '0', '2', '4', '-', '0', '3', '-', '0', '2'] = [19783, 19784] := by
  constructor
  · decide
  · decide

/-- C8 amended: `getDaysArray` never throws and returns the empty
sequence when either bound fails numeric parsing (`NaN`) or when the
(normalized) start exceeds the end; numerically-parseable but
non-existent calendar dates are normalized by rollover rather than
rejected; and `addDays` on an unparseable date signals an error (models
the `toISOString` throw) rather than returning an empty result. -/
theorem c8_lenient_contract (s e : JStr) :
    ((boundOfStr s = none ∨ boundOfStr e = none) → getDaysArray s e = []) ∧
    (∀ a b : Int, boundOfStr s = some a → boundOfStr e = some b → b < a →
      getDaysArray s e = []) ∧
    (intAt (splitDash s) 0 = none → addDays s 1 = none) := by
  refine ⟨?_, ?_, ?_⟩
  · intro h
    unfold getDaysArray
    rcases h with h | h
    · rw [h]
    · rw [h]
      cases boundOfStr s <;> rfl
  · intro a b hsa hsb hba
    unfold getDaysArray
    rw [hsa, hsb]
    exact daysRange_empty a b hba
  · intro h
    unfold addDays
    dsimp only
    rw [h]
    rfl

theorem c8_lenient_contract_witness :
    getDaysArray ['b', 'a', 'n', 'a', 'n', 'a'] (toISOdate 19783) = [] ∧
      getDaysArray (toISOdate 19787) (toISOdate 19783) = [] ∧
      addDays ['b', 'a', 'n', 'a', 'n', 'a'] 1 = none :=
  ⟨(c8_lenient_contract ['b', 'a', 'n', 'a', 'n', 'a'] (toISOdate 19783)).1
      (Or.inl (by decide)),
    (c8_lenient_contract (toISOdate 19787) (toISOdate 19783)).2.1 19787 19783
      (by decide) (by decide) (by decide),
    (c8_lenient_contract ['b', 'a', 'n', 'a', 'n', 'a'] (toISOdate 19783)).2.2 (by decide)⟩

/-! ## Claim C5 -/

/-- C5: attempting to remove the only day of a single-day trip
(`startDate = endDate`) is rejected by the caller's `days.length <= 1`
guard before any mutation is issued: the outcome is a validation failure
(for any clicked date, busy flag and confirmation answer) and the store
is unchanged. -/
theorem c5_single_day_rejected (trip : Trip) (acts : List Activity) (d : JStr)
    (isBusy confirmed : Bool) (k : Int)
    (hs : trip.startDate = toISOdate k) (he : trip.endDate = toISOdate k)
    (hk : safeDay k) :
    handleRemoveClick trip acts d isBusy confirmed = .validationFailure ∧
      (∀ st : AppState, applyOutcome st (handleRemoveClick trip acts d isBusy confirmed) = st) := by
  have hdays : (getDaysArray trip.startDate trip.endDate).length ≤ 1 := by
    rw [hs, he, getDaysArray_toISO k k hk hk, daysRange_length]
    omega
  have houtcome : handleRemoveClick trip acts d isBusy confirmed = .validationFailure := by
    unfold handleRemoveClick
    rw [if_pos hdays]
  refine ⟨houtcome, fun st => ?_⟩
  rw [houtcome]
  rfl

theorem c5_single_day_rejected_witness :
    handleRemoveClick exTrip1 exSt1.activities (toISOdate 19783) false true =
        .validationFailure ∧
      (∀ st : AppState,
        applyOutcome st (handleRemoveClick exTrip1 exSt1.activities (toISOdate 19783) false true) = st) :=
  c5_single_day_rejected exTrip1 exSt1.activities (toISOdate 19783) false true 19783
    rfl rfl (by decide)

/-! ## Claim C10 -/

/-- C10: `handleRemoveDay` itself performs no day-count validation: called
directly on a single-day trip with `d = startDate = endDate`, the
first-day branch executes (some command list is produced, never a
rejection), the day's activities are deleted, `startDate` becomes
`addDays(d, 1)` while `endDate` stays, and the resulting range
`startDate > endDate` enumerates to the empty day sequence.  The
more-than-one-day check lives only in the UI caller. -/
theorem c10_engine_no_validation (st : AppState) (trip : Trip) (d : JStr) (k : Int)
    (hs : trip.startDate = toISOdate k) (he : trip.endDate = toISOdate k)
    (hd : d = trip.startDate) (hk : safeDay k) (hk1 : safeDay (k + 1)) :
    removeDay st trip d ≠ none ∧
      ((removeDay st trip d).getD st).trips =
        handleUpdateTripDates st.trips trip.id (toISOdate (k + 1)) trip.endDate ∧
      ((removeDay st trip d).getD st).activities =
        st.activities.filter (fun a => !(a.tripId = trip.id ∧ dateEqB a.date d)) ∧
      getDaysArray (toISOdate (k + 1)) trip.endDate = [] := by
  have hns : addDays trip.startDate 1 = some (toISOdate (k + 1)) := by
    rw [hs]; exact addDays_toISO_fwd k hk
  have hmaster := removeDay_start st trip d hd (toISOdate (k + 1)) hns
  rw [hmaster]
  refine ⟨by simp, rfl, rfl, ?_⟩
  rw [he, getDaysArray_toISO (k + 1) k hk1 hk]
  exact daysRange_empty (k + 1) k (by omega)

theorem c10_engine_no_validation_witness :
    removeDay exSt1 exTrip1 (toISOdate 19783) ≠ none ∧
      ((removeDay exSt1 exTrip1 (toISOdate 19783)).getD exSt1).trips =
        handleUpdateTripDates exSt1.trips exTrip1.id (toISOdate 19784) exTrip1.endDate ∧
      ((removeDay exSt1 exTrip1 (toISOdate 19783)).getD exSt1).activities =
        exSt1.activities.filter
          (fun a => !(a.tripId = exTrip1.id ∧ dateEqB a.date (toISOdate 19783))) ∧
      getDaysArray (toISOdate 19784) exTrip1.endDate = [] :=
  c10_engine_no_validation exSt1 exTrip1 (toISOdate 19783) 19783 rfl rfl rfl
    (by decide) (by decide)

/-! ## Claim C4 -/

/-- C4: extending a trip only rewrites its `endDate` to
`addDays(endDate, 1)`: the day count grows from N to N+1, `startDate` and
the other fields of the trip record are untouched (given that the stored
record agrees with the UI's copy of `startDate`), trips with other ids
are untouched, and the activities table is completely unchanged. -/
theorem c4_extend_trip (st : AppState) (trip : Trip) (s e : Int)
    (hs : trip.startDate = toISOdate s) (he : trip.endDate = toISOdate e)
    (hsafe_s : safeDay s) (hsafe_e : safeDay e) (hsafe_e1 : safeDay (e + 1))
    (hab : s ≤ e)
    (hcons : ∀ t ∈ st.trips, t.id = trip.id → t.startDate = trip.startDate) :
    extendTrip st trip ≠ none ∧
      addDays trip.endDate 1 = some (toISOdate (e + 1)) ∧
      ((extendTrip st trip).getD st).activities = st.activities ∧
      ((extendTrip st trip).getD st).trips =
        st.trips.map (fun t => if t.id = trip.id then { t with endDate := toISOdate (e + 1) }
                               else t) ∧
      (getDaysArray trip.startDate (toISOdate (e + 1))).length =
        (getDaysArray trip.startDate trip.endDate).length + 1 := by
  have hne : addDays trip.endDate 1 = some (toISOdate (e + 1)) := by
    rw [he]; exact addDays_toISO_fwd e hsafe_e
  have hext : extendTrip st trip = some
      { trips := handleUpdateTripDates st.trips trip.id trip.startDate (toISOdate (e + 1)),
        activities := st.activities } := by
    unfold extendTrip handleExtendTrip
    rw [hne]
    rfl
  rw [hext]
  refine ⟨by simp, hne, rfl, ?_, ?_⟩
  · show handleUpdateTripDates st.trips trip.id trip.startDate (toISOdate (e + 1)) = _
    unfold handleUpdateTripDates
    apply List.map_congr_left
    intro t ht
    by_cases hid : t.id = trip.id
    · rw [if_pos hid, if_pos hid, hcons t ht hid]
    · rw [if_neg hid, if_neg hid]
  · rw [hs, he, getDaysArray_toISO s (e + 1) hsafe_s hsafe_e1,
      getDaysArray_toISO s e hsafe_s hsafe_e, daysRange_length, daysRange_length]
    omega

theorem c4_extend_trip_witness :
    extendTrip exSt exTrip ≠ none ∧
      addDays exTrip.endDate 1 = some (toISOdate 19788) ∧
      ((extendTrip exSt exTrip).getD exSt).activities = exSt.activities ∧
      ((extendTrip exSt exTrip).getD exSt).trips =
        exSt.trips.map (fun t => if t.id = exTrip.id then { t with endDate := toISOdate 19788 }
                                 else t) ∧
      (getDaysArray exTrip.startDate (toISOdate 19788)).length =
        (getDaysArray exTrip.startDate exTrip.endDate).length + 1 :=
  c4_extend_trip exSt exTrip 19783 19787 rfl rfl (by decide) (by decide) (by decide)
    (by decide) (by decide)

/-! ## Claim C9 -/

/-- C9: in the interior-day case, the trace of persistence commands
`handleRemoveDay` issues places the trip-range update after every
per-activity date-shift update: the shifts are dispatched in one awaited
`Promise.all` batch and the `updateTrip` command is issued only after the
batch completes, so in the trace every `updateActDate` index is strictly
below every `updateTrip` index. -/
theorem c9_shifts_before_trip_update (trip : Trip) (acts : List Activity) (d : JStr)
    (ops : List DbOp) (hs : ¬ d = trip.startDate) (he : ¬ d = trip.endDate)
    (hops : handleRemoveDay trip acts d = some ops) :
    ∀ i j op1 op2, ops.get? i = some op1 → ops.get? j = some op2 →
      (∃ aid nd, op1 = DbOp.updateActDate aid nd) →
      (∃ tid ns ne2, op2 = DbOp.updateTrip tid ns ne2) → i < j := by
  unfold handleRemoveDay at hops
  rw [if_neg hs, if_neg he] at hops
  dsimp only at hops
  cases hm : (List.filter (fun a => decide (a.tripId = trip.id ∧ dateGtB a.date d = true))
      (List.filter (fun a => !decide (a.tripId = trip.id ∧ dateEqB a.date d = true))
        acts)).mapM
      (fun a => Option.map (fun nd => DbOp.updateActDate a.id nd) (addDays a.date (-1))) with
  | none =>
    rw [hm] at hops
    simp at hops
  | some shifts =>
    rw [hm] at hops
    cases hne2 : addDays trip.endDate (-1) with
    | none =>
      rw [hne2] at hops
      simp at hops
    | some ne2 =>
      rw [hne2] at hops
      simp only [Option.bind_eq_bind, Option.some_bind, Option.pure_def] at hops
      have hopse : ops = (DbOp.deleteActs trip.id d :: shifts) ++
          [DbOp.updateTrip trip.id trip.startDate ne2] := by
        rw [← Option.some.inj hops]
        simp [List.cons_append]
      rw [hopse]
      apply trace_order
      · intro op hop tid ns ne3 hcon
        rcases List.mem_cons.mp hop with rfl | hop2
        · cases hcon
        · obtain ⟨a, _, hfa⟩ := mapM_mem _ _ _ hm op hop2
          cases had : addDays a.date (-1) with
          | none => rw [had] at hfa; cases hfa
          | some nd =>
            rw [had] at hfa
            rw [hcon] at hfa
            cases hfa
      · intro aid nd hcon
        cases hcon

theorem c9_shifts_before_trip_update_witness :
    handleRemoveDay exTrip exSt.activities (toISOdate 19785) =
      some [DbOp.deleteActs 7 (toISOdate 19785), DbOp.updateActDate 3 (toISOdate 19785),
        DbOp.updateActDate 4 (toISOdate 19786),
        DbOp.updateTrip 7 (toISOdate 19783) (toISOdate 19786)] ∧
    (1 : Nat) < 3 :=
  ⟨by decide,
    c9_shifts_before_trip_update exTrip exSt.activities (toISOdate 19785)
      [DbOp.deleteActs 7 (toISOdate 19785), DbOp.updateActDate 3 (toISOdate 19785),
        DbOp.updateActDate 4 (toISOdate 19786),
        DbOp.updateTrip 7 (toISOdate 19783) (toISOdate 19786)]
      (by decide) (by decide) (by decide) 1 3
      (DbOp.updateActDate 3 (toISOdate 19785))
      (DbOp.updateTrip 7 (toISOdate 19783) (toISOdate 19786))
      (by decide) (by decide)
      ⟨3, toISOdate 19785, rfl⟩ ⟨7, toISOdate 19783, toISOdate 19786, rfl⟩⟩

/-! ## Claim C3 -/

/-- C3: removing a boundary day re-dates nothing.  If the removed date is
the start date, the activities of the trip on that date are deleted,
`startDate` becomes `addDays(startDate, 1)`, `endDate` is untouched and
every surviving activity record is unchanged (the result table is a plain
filter of the original).  If it is the end date of a multi-day trip
(`d ≠ startDate`), the activities on it are deleted, `endDate` becomes
`addDays(endDate, -1)`, `startDate` is untouched and again no surviving
record changes. -/
theorem c3_boundary_removal (st : AppState) (trip : Trip) (d : JStr) (s e : Int)
    (hs : trip.startDate = toISOdate s) (he : trip.endDate = toISOdate e)
    (hsafe_s : safeDay s) (hsafe_e : safeDay e) :
    (d = trip.startDate →
      removeDay st trip d ≠ none ∧
      addDays trip.startDate 1 = some (toISOdate (s + 1)) ∧
      ((removeDay st trip d).getD st).trips =
        handleUpdateTripDates st.trips trip.id (toISOdate (s + 1)) trip.endDate ∧
      ((removeDay st trip d).getD st).activities =
        st.activities.filter (fun a => !(a.tripId = trip.id ∧ dateEqB a.date d)) ∧
      (∀ b ∈ ((removeDay st trip d).getD st).activities,
        ¬(b.tripId = trip.id ∧ dateEqB b.date d = true)) ∧
      (∀ a ∈ st.activities, ¬(a.tripId = trip.id ∧ dateEqB a.date d = true) →
        a ∈ ((removeDay st trip d).getD st).activities)) ∧
    (d = trip.endDate → ¬ d = trip.startDate →
      removeDay st trip d ≠ none ∧
      addDays trip.endDate (-1) = some (toISOdate (e - 1)) ∧
      ((removeDay st trip d).getD st).trips =
        handleUpdateTripDates st.trips trip.id trip.startDate (toISOdate (e - 1)) ∧
      ((removeDay st trip d).getD st).activities =
        st.activities.filter (fun a => !(a.tripId = trip.id ∧ dateEqB a.date d)) ∧
      (∀ b ∈ ((removeDay st trip d).getD st).activities,
        ¬(b.tripId = trip.id ∧ dateEqB b.date d = true)) ∧
      (∀ a ∈ st.activities, ¬(a.tripId = trip.id ∧ dateEqB a.date d = true) →
        a ∈ ((removeDay st trip d).getD st).activities)) := by
  constructor
  · intro hd
    have hns : addDays trip.startDate 1 = some (toISOdate (s + 1)) := by
      rw [hs]; exact addDays_toISO_fwd s hsafe_s
    have hmaster := removeDay_start st trip d hd (toISOdate (s + 1)) hns
    rw [hmaster]
    refine ⟨by simp, hns, rfl, rfl, ?_, ?_⟩
    · intro b hb
      have h1 := List.of_mem_filter hb
      simp at h1
      simp_all
      tauto
    · intro a ha hna
      apply List.mem_filter.mpr
      refine ⟨ha, ?_⟩
      simp
      simp_all
      tauto
  · intro hd hnd
    have hne : addDays trip.endDate (-1) = some (toISOdate (e - 1)) := by
      rw [he]; exact addDays_toISO_back e hsafe_e
    have hmaster := removeDay_end st trip d hnd hd (toISOdate (e - 1)) hne
    rw [hmaster]
    refine ⟨by simp, hne, rfl, rfl, ?_, ?_⟩
    · intro b hb
      have h1 := List.of_mem_filter hb
      simp at h1
      simp_all
      tauto
    · intro a ha hna
      apply List.mem_filter.mpr
      refine ⟨ha, ?_⟩
      simp
      simp_all
      tauto

theorem c3_boundary_removal_witness :
    (toISOdate 19783 = exTrip.startDate →
      removeDay exSt exTrip (toISOdate 19783) ≠ none ∧
      addDays exTrip.startDate 1 = some (toISOdate (19783 + 1)) ∧
      ((removeDay exSt exTrip (toISOdate 19783)).getD exSt).trips =
        handleUpdateTripDates exSt.trips exTrip.id (toISOdate (19783 + 1)) exTrip.endDate ∧
      ((removeDay exSt exTrip (toISOdate 19783)).getD exSt).activities =
        exSt.activities.filter
          (fun a => !(a.tripId = exTrip.id ∧ dateEqB a.date (toISOdate 19783))) ∧
      (∀ b ∈ ((removeDay exSt exTrip (toISOdate 19783)).getD exSt).activities,
        ¬(b.tripId = exTrip.id ∧ dateEqB b.date (toISOdate 19783) = true)) ∧
      (∀ a ∈ exSt.activities,
        ¬(a.tripId = exTrip.id ∧ dateEqB a.date (toISOdate 19783) = true) →
        a ∈ ((removeDay exSt exTrip (toISOdate 19783)).getD exSt).activities)) ∧
    (toISOdate 19783 = exTrip.endDate → ¬ toISOdate 19783 = exTrip.startDate →
      removeDay exSt exTrip (toISOdate 19783) ≠ none ∧
      addDays exTrip.endDate (-1) = some (toISOdate (19787 - 1)) ∧
      ((removeDay exSt exTrip (toISOdate 19783)).getD exSt).trips =
        handleUpdateTripDates exSt.trips exTrip.id exTrip.startDate (toISOdate (19787 - 1)) ∧
      ((removeDay exSt exTrip (toISOdate 19783)).getD exSt).activities =
        exSt.activities.filter
          (fun a => !(a.tripId = exTrip.id ∧ dateEqB a.date (toISOdate 19783))) ∧
      (∀ b ∈ ((removeDay exSt exTrip (toISOdate 19783)).getD exSt).activities,
        ¬(b.tripId = exTrip.id ∧ dateEqB b.date (toISOdate 19783) = true)) ∧
      (∀ a ∈ exSt.activities,
        ¬(a.tripId = exTrip.id ∧ dateEqB a.date (toISOdate 19783) = true) →
        a ∈ ((removeDay exSt exTrip (toISOdate 19783)).getD exSt).activities)) :=
  c3_boundary_removal exSt exTrip (toISOdate 19783) 19783 19787 rfl rfl
    (by decide) (by decide)

/-! ## Claim C1 -/

/-- C1: removing an interior day `d` (`startDate < d < endDate`) deletes
every activity of the trip dated exactly `d`, re-dates every remaining
activity of the trip dated strictly after `d` to `addDays(date, -1)`,
leaves every activity dated strictly before `d` untouched, and rewrites
the trip range to `[startDate, addDays(endDate, -1)]`. -/
theorem c1_remove_interior_day (st : AppState) (trip : Trip) (d : JStr) (s e dd : Int)
    (hs : trip.startDate = toISOdate s) (he : trip.endDate = toISOdate e)
    (hd : d = toISOdate dd)
    (hsafe_s : safeDay s) (hsafe_e : safeDay e) (hsafe_d : safeDay dd)
    (hint1 : s < dd) (hint2 : dd < e)
    (hnd : (st.activities.map fun a => a.id).Nodup)
    (hacts : ∀ a ∈ st.activities, a.tripId = trip.id → canonicalAct a) :
    removeDay st trip d ≠ none ∧
      ((removeDay st trip d).getD st).trips =
        handleUpdateTripDates st.trips trip.id trip.startDate (toISOdate (e - 1)) ∧
      (∀ a ∈ st.activities, a.tripId = trip.id → a.date = toISOdate dd →
        ∀ b ∈ ((removeDay st trip d).getD st).activities, b.id ≠ a.id) ∧
      (∀ a ∈ st.activities, a.tripId = trip.id → ∀ k, safeDay k → a.date = toISOdate k →
        dd < k →
        addDays a.date (-1) = some (toISOdate (k - 1)) ∧
        { a with date := toISOdate (k - 1) } ∈ ((removeDay st trip d).getD st).activities) ∧
      (∀ a ∈ st.activities, a.tripId = trip.id → ∀ k, safeDay k → a.date = toISOdate k →
        k < dd → a ∈ ((removeDay st trip d).getD st).activities) := by
  subst hd
  have hnes : ¬ toISOdate dd = trip.startDate := by
    rw [hs]; exact toISOdate_ne dd s hsafe_d hsafe_s (by omega)
  have hnee : ¬ toISOdate dd = trip.endDate := by
    rw [he]; exact toISOdate_ne dd e hsafe_d hsafe_e (by omega)
  have hg : ∀ a ∈ st.activities, a.tripId = trip.id →
      dateGtB a.date (toISOdate dd) = true →
      addDays a.date (-1) = some ((addDays a.date (-1)).getD a.date) := by
    intro a ha htr hgt
    obtain ⟨k, hk, hdate⟩ := canonicalAct_elim a (hacts a ha htr)
    rw [hdate, addDays_toISO_back k hk]
    rfl
  have hne2 : addDays trip.endDate (-1) = some (toISOdate (e - 1)) := by
    rw [he]; exact addDays_toISO_back e hsafe_e
  have hmaster := removeDay_interior st trip (toISOdate dd) hnes hnee _ hg _ hne2 hnd
  rw [hmaster]
  simp only [Option.getD_some, ne_eq, reduceCtorEq, not_false_eq_true, true_and]
  refine ⟨?_, ?_, ?_⟩
  · -- activities dated exactly d are gone
    intro a ha htr hadate b hb hbid
    obtain ⟨pre, hpre, hfb⟩ := List.mem_map.mp hb
    have hidb : b.id = pre.id := by
      rw [← hfb]
      split_ifs <;> rfl
    have hpmem := List.mem_of_mem_filter hpre
    have hpfilter := List.of_mem_filter hpre
    have hpeq : pre = a := List.inj_on_of_nodup_map hnd hpmem ha (by rw [← hidb, hbid])
    subst hpeq
    rw [hadate] at hpfilter
    rw [dateEqB_toISO dd dd hsafe_d hsafe_d] at hpfilter
    simp [htr] at hpfilter
  · -- activities strictly after d are shifted back one day
    intro a ha htr k hk hdate hlt
    have hshift : addDays a.date (-1) = some (toISOdate (k - 1)) := by
      rw [hdate]; exact addDays_toISO_back k hk
    refine ⟨hshift, ?_⟩
    apply List.mem_map.mpr
    refine ⟨a, ?_, ?_⟩
    · apply List.mem_filter.mpr
      refine ⟨ha, ?_⟩
      rw [hdate, dateEqB_toISO k dd hk hsafe_d]
      simp only [Bool.not_eq_true', decide_eq_false_iff_not]
      intro hcon
      have : k = dd := by simpa using hcon.2
      omega
    · have hgt : dateGtB a.date (toISOdate dd) = true := by
        rw [hdate, dateGtB_toISO k dd hk hsafe_d]
        simp
        omega
      rw [if_pos ⟨htr, hgt⟩, hshift]
      rfl
  · -- activities strictly before d are untouched
    intro a ha htr k hk hdate hlt
    apply List.mem_map.mpr
    refine ⟨a, ?_, ?_⟩
    · apply List.mem_filter.mpr
      refine ⟨ha, ?_⟩
      rw [hdate, dateEqB_toISO k dd hk hsafe_d]
      simp only [Bool.not_eq_true', decide_eq_false_iff_not]
      intro hcon
      have : k = dd := by simpa using hcon.2
      omega
    · have hgt : dateGtB a.date (toISOdate dd) = false := by
        rw [hdate, dateGtB_toISO k dd hk hsafe_d]
        simp
        omega
      rw [if_neg]
      intro hcon
      rw [hgt] at hcon
      exact absurd hcon.2 (by simp)

theorem c1_remove_interior_day_witness :
    removeDay exSt exTrip (toISOdate 19785) ≠ none ∧
      ((removeDay exSt exTrip (toISOdate 19785)).getD exSt).trips =
        handleUpdateTripDates exSt.trips exTrip.id exTrip.startDate (toISOdate (19787 - 1)) ∧
      (∀ a ∈ exSt.activities, a.tripId = exTrip.id → a.date = toISOdate 19785 →
        ∀ b ∈ ((removeDay exSt exTrip (toISOdate 19785)).getD exSt).activities, b.id ≠ a.id) ∧
      (∀ a ∈ exSt.activities, a.tripId = exTrip.id → ∀ k, safeDay k →
        a.date = toISOdate k → (19785 : Int) < k →
        addDays a.date (-1) = some (toISOdate (k - 1)) ∧
        { a with date := toISOdate (k - 1) } ∈
          ((removeDay exSt exTrip (toISOdate 19785)).getD exSt).activities) ∧
      (∀ a ∈ exSt.activities, a.tripId = exTrip.id → ∀ k, safeDay k →
        a.date = toISOdate k → k < (19785 : Int) →
        a ∈ ((removeDay exSt exTrip (toISOdate 19785)).getD exSt).activities) :=
  c1_remove_interior_day exSt exTrip (toISOdate 19785) 19783 19787 19785 rfl rfl rfl
    (by decide) (by decide) (by decide) (by decide) (by decide) (by decide) (by decide)

/-! ## Claim C2 -/

/-- C2 as stated is false: removing the interior day 2024-03-03 from the
trip `[2024-03-01, 2024-03-05]` with an activity on 2024-03-04 leaves a
remaining activity whose date is exactly the removed date `d` — the
activity originally on 03-04 is re-dated to 03-03.  (Only "no activity
*retains* the removed date" holds: the records originally dated `d` are
deleted.) -/
theorem c2_counterexample :
    removeDay exSt exTrip (toISOdate 19785) ≠ none ∧
      (((removeDay exSt exTrip (toISOdate 19785)).getD exSt).activities.any
        (fun b => decide (b.tripId = exTrip.id) && decide (b.date = toISOdate 19785))) = true := by
  constructor
  · decide
  · decide

theorem act_day_eq (a : Activity) (k : Int) (hca : canonicalAct a) (hk : safeDay k)
    (hdate : a.date = toISOdate k) : (dbDate a.date).getD 0 = k :=
  toISOdate_inj _ _ hca.1 hk (by rw [← hca.2, hdate])

/-- C2 amended: for every trip with more than one day and every removed
date `d` in `[startDate, endDate]`, after `removeDay(d)`: the day count
drops by exactly one; every surviving activity of the trip carries the
date `removedShift` prescribes (original date, shifted back one day only
in the interior case for dates after `d`) and that date lies inside the
new `[startDate, endDate]` range; every activity of the trip *originally*
dated `d` is deleted (no record retains `d`, though in the interior case
a re-dated activity may newly occupy `d`); and the relative order of the
surviving records (insertion order, and original-date order under the
shift) is preserved. -/
theorem c2_remove_day_postconditions (st : AppState) (trip : Trip) (d : JStr)
    (s e dd : Int)
    (hs : trip.startDate = toISOdate s) (he : trip.endDate = toISOdate e)
    (hd : d = toISOdate dd)
    (hsafe_s : safeDay s) (hsafe_e : safeDay e) (hsafe_d : safeDay dd)
    (hsafe_s1 : safeDay (s + 1)) (hsafe_e1 : safeDay (e - 1))
    (hse : s < e) (hds : s ≤ dd) (hde : dd ≤ e)
    (hnd : (st.activities.map fun a => a.id).Nodup)
    (hacts : ∀ a ∈ st.activities, a.tripId = trip.id → canonicalAct a)
    (hrange : ∀ a ∈ st.activities, a.tripId = trip.id →
      s ≤ (dbDate a.date).getD 0 ∧ (dbDate a.date).getD 0 ≤ e) :
    removeDay st trip d ≠ none ∧
      ((removeDay st trip d).getD st).trips =
        handleUpdateTripDates st.trips trip.id
          (toISOdate (if dd = s then s + 1 else s))
          (toISOdate (if dd = s then e else e - 1)) ∧
      (getDaysArray (toISOdate (if dd = s then s + 1 else s))
            (toISOdate (if dd = s then e else e - 1))).length + 1 =
        (getDaysArray trip.startDate trip.endDate).length ∧
      (∀ a ∈ st.activities, a.tripId = trip.id → ∀ k, safeDay k →
        a.date = toISOdate k → k ≠ dd →
        { a with date := toISOdate (removedShift s e dd k) } ∈
            ((removeDay st trip d).getD st).activities ∧
          (if dd = s then s + 1 else s) ≤ removedShift s e dd k ∧
          removedShift s e dd k ≤ (if dd = s then e else e - 1)) ∧
      (∀ b ∈ ((removeDay st trip d).getD st).activities, b.tripId = trip.id →
        ∃ k, b.date = toISOdate k ∧ (if dd = s then s + 1 else s) ≤ k ∧
          k ≤ (if dd = s then e else e - 1)) ∧
      (∀ a ∈ st.activities, a.tripId = trip.id → dateEqB a.date d = true →
        ∀ b ∈ ((removeDay st trip d).getD st).activities, b.id ≠ a.id) ∧
      ((((removeDay st trip d).getD st).activities.map fun b => b.id).Sublist
        (st.activities.map fun a => a.id)) ∧
      (∀ k1 k2 : Int, s ≤ k1 → k1 < k2 → k2 ≤ e → k1 ≠ dd → k2 ≠ dd →
        removedShift s e dd k1 < removedShift s e dd k2) := by
  subst hd
  have h8 : ∀ k1 k2 : Int, s ≤ k1 → k1 < k2 → k2 ≤ e → k1 ≠ dd → k2 ≠ dd →
      removedShift s e dd k1 < removedShift s e dd k2 := by
    intro k1 k2 h1 h2 h3 h4 h5
    unfold removedShift
    split_ifs <;> omega
  by_cases hdds : dd = s
  · -- removing the first day
    subst hdds
    have hif1 : (if dd = dd then dd + 1 else dd) = dd + 1 := if_pos rfl
    have hif2 : (if dd = dd then e else e - 1) = e := if_pos rfl
    rw [hif1, hif2]
    have hns : addDays trip.startDate 1 = some (toISOdate (dd + 1)) := by
      rw [hs]; exact addDays_toISO_fwd dd hsafe_s
    have hmaster := removeDay_start st trip (toISOdate dd) hs.symm _ hns
    rw [hmaster]
    simp only [Option.getD_some]
    refine ⟨by simp, by rw [he], ?_, ?_, ?_, ?_, ?_, h8⟩
    · rw [hs, he, getDaysArray_toISO (dd + 1) e hsafe_s1 hsafe_e,
        getDaysArray_toISO dd e hsafe_s hsafe_e, daysRange_length, daysRange_length]
      omega
    · intro a ha htr k hk hdate hkdd
      have hca := hacts a ha htr
      have hkey := act_day_eq a k hca hk hdate
      have hr := hrange a ha htr
      have hshift_eq : removedShift dd e dd k = k := by
        unfold removedShift
        rw [if_neg (by omega)]
      rw [hshift_eq]
      refine ⟨?_, by omega, by omega⟩
      have hrec : ({ a with date := toISOdate k } : Activity) = a := by rw [← hdate]
      rw [hrec]
      apply List.mem_filter.mpr
      refine ⟨ha, ?_⟩
      rw [hdate, dateEqB_toISO k dd hk hsafe_d]
      simp only [Bool.not_eq_true', decide_eq_false_iff_not]
      intro hcon
      have : k = dd := by simpa using hcon.2
      omega
    · intro b hb htr
      have hbmem := List.mem_of_mem_filter hb
      have hbfil := List.of_mem_filter hb
      have hca := hacts b hbmem htr
      have hr := hrange b hbmem htr
      simp only [htr, true_and, Bool.not_eq_true', decide_eq_false_iff_not,
        decide_eq_true_eq] at hbfil
      have hne : dateEqB b.date (toISOdate dd) = false := by
        rcases Decidable.em (dateEqB b.date (toISOdate dd) = true) with h | h
        · exact absurd h hbfil
        · simpa using h
      rw [hca.2, dateEqB_toISO _ dd hca.1 hsafe_d] at hne
      have hne2 : (dbDate b.date).getD 0 ≠ dd := by simpa using hne
      exact ⟨(dbDate b.date).getD 0, hca.2, by omega, by omega⟩
    · intro a ha htr heq b hb hbid
      have hbmem := List.mem_of_mem_filter hb
      have hbfil := List.of_mem_filter hb
      have hba : b = a := List.inj_on_of_nodup_map hnd hbmem ha hbid
      subst hba
      simp [htr, heq] at hbfil
    · exact List.Sublist.map _ (List.filter_sublist _)
  · by_cases hdde : dd = e
    · -- removing the last day
      subst hdde
      have hif1 : (if dd = s then s + 1 else s) = s := if_neg hdds
      have hif2 : (if dd = s then dd else dd - 1) = dd - 1 := if_neg hdds
      rw [hif1, hif2]
      have hnstart : ¬ toISOdate dd = trip.startDate := by
        rw [hs]; exact toISOdate_ne dd s hsafe_d hsafe_s hdds
      have hne2 : addDays trip.endDate (-1) = some (toISOdate (dd - 1)) := by
        rw [he]; exact addDays_toISO_back dd hsafe_e
      have hmaster := removeDay_end st trip (toISOdate dd) hnstart he.symm _ hne2
      rw [hmaster]
      simp only [Option.getD_some]
      refine ⟨by simp, by rw [hs], ?_, ?_, ?_, ?_, ?_, h8⟩
      · rw [hs, he, getDaysArray_toISO s (dd - 1) hsafe_s hsafe_e1,
          getDaysArray_toISO s dd hsafe_s hsafe_e, daysRange_length, daysRange_length]
        omega
      · intro a ha htr k hk hdate hkdd
        have hca := hacts a ha htr
        have hkey := act_day_eq a k hca hk hdate
        have hr := hrange a ha htr
        have hshift_eq : removedShift s dd dd k = k := by
          unfold removedShift
          rw [if_neg (by omega)]
        rw [hshift_eq]
        refine ⟨?_, by omega, by omega⟩
        have hrec : ({ a with date := toISOdate k } : Activity) = a := by rw [← hdate]
        rw [hrec]
        apply List.mem_filter.mpr
        refine ⟨ha, ?_⟩
        rw [hdate, dateEqB_toISO k dd hk hsafe_d]
        simp only [Bool.not_eq_true', decide_eq_false_iff_not]
        intro hcon
        have : k = dd := by simpa using hcon.2
        omega
      · intro b hb htr
        have hbmem := List.mem_of_mem_filter hb
        have hbfil := List.of_mem_filter hb
        have hca := hacts b hbmem htr
        have hr := hrange b hbmem htr
        simp only [htr, true_and, Bool.not_eq_true', decide_eq_false_iff_not,
          decide_eq_true_eq] at hbfil
        have hne : dateEqB b.date (toISOdate dd) = false := by
          rcases Decidable.em (dateEqB b.date (toISOdate dd) = true) with h | h
          · exact absurd h hbfil
          · simpa using h
        rw [hca.2, dateEqB_toISO _ dd hca.1 hsafe_d] at hne
        have hne3 : (dbDate b.date).getD 0 ≠ dd := by simpa using hne
        exact ⟨(dbDate b.date).getD 0, hca.2, by omega, by omega⟩
      · intro a ha htr heq b hb hbid
        have hbmem := List.mem_of_mem_filter hb
        have hbfil := List.of_mem_filter hb
        have hba : b = a := List.inj_on_of_nodup_map hnd hbmem ha hbid
        subst hba
        simp [htr, heq] at hbfil
      · exact List.Sublist.map _ (List.filter_sublist _)
    · -- removing an interior day
      have hint1 : s < dd := by omega
      have hint2 : dd < e := by
        rcases lt_or_eq_of_le hde with h | h
        · exact h
        · exact absurd h hdde
      have hif1 : (if dd = s then s + 1 else s) = s := if_neg hdds
      have hif2 : (if dd = s then e else e - 1) = e - 1 := if_neg hdds
      rw [hif1, hif2]
      have hnes : ¬ toISOdate dd = trip.startDate := by
        rw [hs]; exact toISOdate_ne dd s hsafe_d hsafe_s hdds
      have hnee : ¬ toISOdate dd = trip.endDate := by
        rw [he]; exact toISOdate_ne dd e hsafe_d hsafe_e hdde
      have hg : ∀ a ∈ st.activities, a.tripId = trip.id →
          dateGtB a.date (toISOdate dd) = true →
          addDays a.date (-1) = some ((addDays a.date (-1)).getD a.date) := by
        intro a ha htr hgt
        obtain ⟨k, hk, hdate⟩ := canonicalAct_elim a (hacts a ha htr)
        rw [hdate, addDays_toISO_back k hk]
        rfl
      have hne2 : addDays trip.endDate (-1) = some (toISOdate (e - 1)) := by
        rw [he]; exact addDays_toISO_back e hsafe_e
      have hmaster := removeDay_interior st trip (toISOdate dd) hnes hnee _ hg _ hne2 hnd
      rw [hmaster]
      simp only [Option.getD_some]
      refine ⟨by simp, by rw [hs], ?_, ?_, ?_, ?_, ?_, h8⟩
      · rw [hs, he, getDaysArray_toISO s (e - 1) hsafe_s hsafe_e1,
          getDaysArray_toISO s e hsafe_s hsafe_e, daysRange_length, daysRange_length]
        omega
      · intro a ha htr k hk hdate hkdd
        have hca := hacts a ha htr
        have hkey := act_day_eq a k hca hk hdate
        have hr := hrange a ha htr
        have hfmem : a ∈ st.activities.filter
            (fun a => !(a.tripId = trip.id ∧ dateEqB a.date (toISOdate dd))) := by
          apply List.mem_filter.mpr
          refine ⟨ha, ?_⟩
          rw [hdate, dateEqB_toISO k dd hk hsafe_d]
          simp only [Bool.not_eq_true', decide_eq_false_iff_not]
          intro hcon
          have : k = dd := by simpa using hcon.2
          omega
        rcases lt_or_gt_of_ne hkdd with hklt | hkgt
        · -- date before the removed day: untouched
          have hshift_eq : removedShift s e dd k = k := by
            unfold removedShift
            rw [if_neg (by omega)]
          rw [hshift_eq]
          refine ⟨?_, by omega, by omega⟩
          have hrec : ({ a with date := toISOdate k } : Activity) = a := by rw [← hdate]
          rw [hrec]
          apply List.mem_map.mpr
          refine ⟨a, hfmem, ?_⟩
          have hgt : dateGtB a.date (toISOdate dd) = false := by
            rw [hdate, dateGtB_toISO k dd hk hsafe_d]
            simp
            omega
          rw [if_neg]
          intro hcon
          rw [hgt] at hcon
          exact absurd hcon.2 (by simp)
        · -- date after the removed day: shifted back one day
          have hshift_eq : removedShift s e dd k = k - 1 := by
            unfold removedShift
            rw [if_pos (by omega)]
          rw [hshift_eq]
          refine ⟨?_, by omega, by omega⟩
          apply List.mem_map.mpr
          refine ⟨a, hfmem, ?_⟩
          have hgt : dateGtB a.date (toISOdate dd) = true := by
            rw [hdate, dateGtB_toISO k dd hk hsafe_d]
            simp
            omega
          rw [if_pos ⟨htr, hgt⟩, hdate, addDays_toISO_back k hk]
          rfl
      · intro b hb htr
        obtain ⟨pre, hpre, hfb⟩ := List.mem_map.mp hb
        have hpmem := List.mem_of_mem_filter hpre
        have hpfil := List.of_mem_filter hpre
        have hptr : pre.tripId = trip.id := by
          rw [← hfb] at htr
          by_cases hp : pre.tripId = trip.id ∧ dateGtB pre.date (toISOdate dd) = true
          · exact hp.1
          · rw [if_neg hp] at htr
            exact htr
        have hca := hacts pre hpmem hptr
        have hr := hrange pre hpmem hptr
        simp only [hptr, true_and, Bool.not_eq_true', decide_eq_false_iff_not,
          decide_eq_true_eq] at hpfil
        have hned : dateEqB pre.date (toISOdate dd) = false := by
          rcases Decidable.em (dateEqB pre.date (toISOdate dd) = true) with h | h
          · exact absurd h hpfil
          · simpa using h
        rw [hca.2, dateEqB_toISO _ dd hca.1 hsafe_d] at hned
        have hkdd : (dbDate pre.date).getD 0 ≠ dd := by simpa using hned
        by_cases hp : pre.tripId = trip.id ∧ dateGtB pre.date (toISOdate dd) = true
        · have hgt : dd < (dbDate pre.date).getD 0 := by
            have := hp.2
            rw [hca.2, dateGtB_toISO _ dd hca.1 hsafe_d] at this
            simpa using this
          refine ⟨(dbDate pre.date).getD 0 - 1, ?_, by omega, by omega⟩
          rw [← hfb, if_pos hp]
          show (addDays pre.date (-1)).getD pre.date =
            toISOdate ((dbDate pre.date).getD 0 - 1)
          have hsome : addDays pre.date (-1) =
              some (toISOdate ((dbDate pre.date).getD 0 - 1)) := by
            conv_lhs => rw [hca.2]
            exact addDays_toISO_back _ hca.1
          rw [hsome]
          rfl
        · have hlt : (dbDate pre.date).getD 0 < dd := by
            have hngt : dateGtB pre.date (toISOdate dd) = false := by
              rcases Decidable.em (dateGtB pre.date (toISOdate dd) = true) with h | h
              · exact absurd ⟨hptr, h⟩ hp
              · simpa using h
            rw [hca.2, dateGtB_toISO _ dd hca.1 hsafe_d] at hngt
            have := of_decide_eq_false hngt
            omega
          refine ⟨(dbDate pre.date).getD 0, ?_, by omega, by omega⟩
          rw [← hfb, if_neg hp]
          exact hca.2
      · intro a ha htr heq b hb hbid
        obtain ⟨pre, hpre, hfb⟩ := List.mem_map.mp hb
        have hidb : b.id = pre.id := by
          rw [← hfb]
          split_ifs <;> rfl
        have hpmem := List.mem_of_mem_filter hpre
        have hpfil := List.of_mem_filter hpre
        have hpeq : pre = a := List.inj_on_of_nodup_map hnd hpmem ha (by rw [← hidb, hbid])
        subst hpeq
        simp [htr, heq] at hpfil
      · have hmapid : (((st.activities.filter
            (fun a => !(a.tripId = trip.id ∧ dateEqB a.date (toISOdate dd)))).map
              (fun a => if a.tripId = trip.id ∧ dateGtB a.date (toISOdate dd) = true
                        then { a with date := (addDays a.date (-1)).getD a.date }
                        else a)).map fun b => b.id) =
            ((st.activities.filter
              (fun a => !(a.tripId = trip.id ∧ dateEqB a.date (toISOdate dd)))).map
                fun a => a.id) := by
          rw [List.map_map]
          apply List.map_congr_left
          intro a ha
          show (if _ then _ else _ : Activity).id = a.id
          split_ifs <;> rfl
        rw [hmapid]
        exact List.Sublist.map _ (List.filter_sublist _)

theorem c2_remove_day_postconditions_witness :
    removeDay exSt exTrip (toISOdate 19785) ≠ none ∧
      ((removeDay exSt exTrip (toISOdate 19785)).getD exSt).trips =
        handleUpdateTripDates exSt.trips exTrip.id
          (toISOdate (if (19785 : Int) = 19783 then 19783 + 1 else 19783))
          (toISOdate (if (19785 : Int) = 19783 then 19787 else 19787 - 1)) ∧
      (getDaysArray (toISOdate (if (19785 : Int) = 19783 then 19783 + 1 else 19783))
            (toISOdate (if (19785 : Int) = 19783 then 19787 else 19787 - 1))).length + 1 =
        (getDaysArray exTrip.startDate exTrip.endDate).length ∧
      (∀ a ∈ exSt.activities, a.tripId = exTrip.id → ∀ k, safeDay k →
        a.date = toISOdate k → k ≠ 19785 →
        { a with date := toISOdate (removedShift 19783 19787 19785 k) } ∈
            ((removeDay exSt exTrip (toISOdate 19785)).getD exSt).activities ∧
          (if (19785 : Int) = 19783 then 19783 + 1 else 19783) ≤
            removedShift 19783 19787 19785 k ∧
          removedShift 19783 19787 19785 k ≤
            (if (19785 : Int) = 19783 then 19787 else 19787 - 1)) ∧
      (∀ b ∈ ((removeDay exSt exTrip (toISOdate 19785)).getD exSt).activities,
        b.tripId = exTrip.id →
        ∃ k, b.date = toISOdate k ∧
          (if (19785 : Int) = 19783 then 19783 + 1 else 19783) ≤ k ∧
          k ≤ (if (19785 : Int) = 19783 then 19787 else 19787 - 1)) ∧
      (∀ a ∈ exSt.activities, a.tripId = exTrip.id →
        dateEqB a.date (toISOdate 19785) = true →
        ∀ b ∈ ((removeDay exSt exTrip (toISOdate 19785)).getD exSt).activities,
          b.id ≠ a.id) ∧
      ((((removeDay exSt exTrip (toISOdate 19785)).getD exSt).activities.map
          fun b => b.id).Sublist (exSt.activities.map fun a => a.id)) ∧
      (∀ k1 k2 : Int, 19783 ≤ k1 → k1 < k2 → k2 ≤ 19787 → k1 ≠ 19785 → k2 ≠ 19785 →
        removedShift 19783 19787 19785 k1 < removedShift 19783 19787 19785 k2) :=
  c2_remove_day_postconditions exSt exTrip (toISOdate 19785) 19783 19787 19785
    rfl rfl rfl (by decide) (by decide) (by decide) (by decide) (by decide)
    (by decide) (by decide) (by decide) (by decide) (by decide) (by decide)
